/-
Verification of the codex-chat-bridge proxy (src/main.rs) against its
natural-language specification.

The development shallowly embeds the parts of the program the claims are
about:
  * a `Json` inductive mirroring `serde_json::Value` (numbers as `Int`,
    objects as association lists; the program only reads, inserts and
    removes keys, never observes key order);
  * the request transcoders (`map_responses_to_chat_request_with_stream`,
    `map_chat_to_responses_request`, tool and tool-choice normalization,
    stream-flag handling);
  * the SSE line parser (`SseParser`), over `List Char`;
  * the Chat-to-Responses streaming transcoder (`translate_chat_stream`),
    as a pure function from a list of upstream chunk results to the list
    of emitted events.

Nondeterministic collaborators are passed in as parameters: JSON decoding
of upstream chunk payloads (`serde_json::from_str::<ChatChunk>`) as a
function `List Char → Option ChatChunk`, and UUID generation
(`Uuid::now_v7`) as a fresh-string supply.  Rust's
`str::trim().is_empty()` is modelled as all characters satisfying the
Unicode `White_Space` property (`rustIsWhitespace`).
-/
import Mathlib

/-- `serde_json::Value`.  Objects are association lists of key/value
pairs; the bridge never observes key order, only lookup, insert and
remove. -/
inductive Json where
  | null
  | bool (b : Bool)
  | num (n : Int)
  | str (s : String)
  | arr (xs : List Json)
  | obj (kvs : List (String × Json))

/-- Key lookup in an object entry list (first match). -/
def jlookup (k : String) : List (String × Json) → Option Json
  | [] => none
  | (k1, v) :: rest => if k1 = k then some v else jlookup k rest

/-- `Value::get` on an object (returns `None` on non-objects). -/
def Json.get? : Json → String → Option Json
  | .obj kvs, k => jlookup k kvs
  | _, _ => none

/-- `Value::as_str`. -/
def Json.asStr? : Json → Option String
  | .str s => some s
  | _ => none

/-- `Value::as_bool`. -/
def Json.asBool? : Json → Option Bool
  | .bool b => some b
  | _ => none

/-- `Value::as_array`. -/
def Json.asArr? : Json → Option (List Json)
  | .arr xs => some xs
  | _ => none

/-- `Value::as_object`. -/
def Json.asObj? : Json → Option (List (String × Json))
  | .obj kvs => some kvs
  | _ => none

/-- `Value::is_object` / `as_object_mut().is_some()`. -/
def Json.isObj : Json → Bool
  | .obj _ => true
  | _ => false

/-- Replace the value of key `k` in an entry list, or append the pair if
the key is absent (`serde_json::Map::insert`). -/
def jinsert (k : String) (v : Json) : List (String × Json) → List (String × Json)
  | [] => [(k, v)]
  | (k1, v1) :: rest =>
    if k1 = k then (k1, v) :: rest else (k1, v1) :: jinsert k v rest

/-- `Map::insert` on an object; a no-op on other values (mirrors the
`as_object_mut` guards in the source). -/
def Json.insert (j : Json) (k : String) (v : Json) : Json :=
  match j with
  | .obj kvs => .obj (jinsert k v kvs)
  | other => other

/-- `Map::remove` on an object; a no-op on other values. -/
def Json.remove (j : Json) (k : String) : Json :=
  match j with
  | .obj kvs => .obj (kvs.filter (fun p => ¬ p.1 = k))
  | other => other

/-- Escape one character for compact JSON string output
(`serde_json::to_string`); only the escapes the bridge can hit are
spelled out, the rest pass through. -/
def jescapeChar (c : Char) : String :=
  if c = '"' then "\\\""
  else if c = '\\' then "\\\\"
  else if c = '\n' then "\\n"
  else if c = '\r' then "\\r"
  else if c = '\t' then "\\t"
  else String.mk [c]

/-- Escape a string for compact JSON output. -/
def jescape (s : String) : String :=
  String.join (s.toList.map jescapeChar)

mutual

/-- `Value::to_string()`: compact JSON serialization. -/
def Json.render : Json → String
  | .null => "null"
  | .bool b => if b then "true" else "false"
  | .num n => toString n
  | .str s => "\"" ++ jescape s ++ "\""
  | .arr xs => "[" ++ Json.renderList xs ++ "]"
  | .obj kvs => "\x7b" ++ Json.renderObj kvs ++ "\x7d"

/-- Comma-separated rendering of array elements. -/
def Json.renderList : List Json → String
  | [] => ""
  | [x] => Json.render x
  | x :: xs => Json.render x ++ "," ++ Json.renderList xs

/-- Comma-separated rendering of object entries. -/
def Json.renderObj : List (String × Json) → String
  | [] => ""
  | [(k, v)] => "\"" ++ jescape k ++ "\":" ++ Json.render v
  | (k, v) :: kvs => "\"" ++ jescape k ++ "\":" ++ Json.render v ++ "," ++ Json.renderObj kvs

end

/-- Rust `char::is_whitespace`: the Unicode `White_Space` property.
Beyond ASCII space, tab, CR and LF it also holds of `\x0B` (vertical
tab), `\x0C` (form feed), `U+0085` (NEL), `U+00A0` (no-break space),
`U+1680`, `U+2000`..`U+200A`, `U+2028`, `U+2029`, `U+202F`, `U+205F`
and `U+3000`. -/
def rustIsWhitespace (c : Char) : Bool :=
  let n := c.toNat
  n == 0x09 || n == 0x0A || n == 0x0B || n == 0x0C || n == 0x0D ||
  n == 0x20 || n == 0x85 || n == 0xA0 || n == 0x1680 ||
  (decide (0x2000 ≤ n) && decide (n ≤ 0x200A)) ||
  n == 0x2028 || n == 0x2029 || n == 0x202F || n == 0x205F || n == 0x3000

/-- Rust `v.trim().is_empty()`: the string is empty or contains only
Unicode `White_Space` characters (`str::trim` trims by
`char::is_whitespace`). -/
def isBlank (s : String) : Bool :=
  s.toList.all rustIsWhitespace

/-- The default parameter schema the bridge substitutes for a missing
`parameters` field. -/
def defaultParameters : Json :=
  .obj [("type", .str "object"), ("properties", .obj [])]

/-- `function_arguments_to_text`: a JSON string passes through, any
other value is serialized. -/
def function_arguments_to_text : Json → String
  | .str s => s
  | other => other.render

/-- `flatten_content_items`: concatenate the non-empty `text` fields of
`input_text`/`output_text` parts, joined by newlines. -/
def flatten_content_items (items : List Json) : String :=
  let parts := items.filterMap (fun item =>
    let itemType := ((item.get? "type").bind Json.asStr?).getD ""
    if itemType = "input_text" ∨ itemType = "output_text" then
      match (item.get? "text").bind Json.asStr? with
      | some text => if text = "" then none else some text
      | none => none
    else none)
  String.intercalate "\n" parts

/-- `function_output_to_text`: strings pass through, arrays are
flattened like message content, anything else is serialized. -/
def function_output_to_text : Json → String
  | .str s => s
  | .arr items => flatten_content_items items
  | other => other.render

/-- `normalize_chat_tools`, per element: drop configured tool types,
pass non-function tools and already-wrapped function tools verbatim,
wrap bare function tools (dropping those without a string `name`). -/
def normalizeChatTool (drop : List String) (tool : Json) : Option Json :=
  let toolType := (tool.get? "type").bind Json.asStr?
  if toolType.any (fun t => drop.contains t) then none
  else if ¬ toolType = some "function" then some tool
  else if (tool.get? "function").isSome then some tool
  else
    match (tool.get? "name").bind Json.asStr? with
    | none => none
    | some name =>
      let description := ((tool.get? "description").bind Json.asStr?).getD ""
      let parameters := (tool.get? "parameters").getD defaultParameters
      some (.obj [("type", .str "function"),
        ("function", .obj [("name", .str name),
          ("description", .str description),
          ("parameters", parameters)])])

/-- `normalize_chat_tools`. -/
def normalize_chat_tools (tools : List Json) (drop : List String) : List Json :=
  tools.filterMap (normalizeChatTool drop)

/-- `normalize_tool_choice` (Chat-bound): strings pass, objects with a
`function` key pass verbatim, `{type:"function", name}` is rewrapped,
everything else becomes `"auto"`. -/
def normalize_tool_choice (choice : Json) : Json :=
  match choice.asStr? with
  | some s => .str s
  | none =>
    if ¬ choice.isObj then .str "auto"
    else if (choice.get? "function").isSome then choice
    else if ((choice.get? "type").bind Json.asStr? = some "function") then
      match (choice.get? "name").bind Json.asStr? with
      | some name =>
        .obj [("type", .str "function"), ("function", .obj [("name", .str name)])]
      | none => .str "auto"
    else .str "auto"

/-- `normalize_responses_tools`, per element: non-function tools and
function tools without a nested `function` object pass verbatim;
wrapped function tools are unwrapped (dropped when the inner `name` is
missing or not a string). -/
def normalizeResponsesTool (tool : Json) : Option Json :=
  if ¬ ((tool.get? "type").bind Json.asStr? = some "function") then some tool
  else
    match tool.get? "function" with
    | none => some tool
    | some function =>
      match (function.get? "name").bind Json.asStr? with
      | none => none
      | some name =>
        let description := ((function.get? "description").bind Json.asStr?).getD ""
        let parameters := (function.get? "parameters").getD defaultParameters
        some (.obj [("type", .str "function"),
          ("name", .str name),
          ("description", .str description),
          ("parameters", parameters)])

/-- `normalize_responses_tools`. -/
def normalize_responses_tools (tools : List Json) : List Json :=
  tools.filterMap normalizeResponsesTool

/-- `normalize_responses_tool_choice`: `{type:"function",
function:{name}}` is unwrapped to `{type:"function", name}`; everything
else passes verbatim. -/
def normalize_responses_tool_choice (choice : Json) : Json :=
  if choice.isObj then
    if (choice.get? "type").bind Json.asStr? = some "function" then
      match ((choice.get? "function").bind Json.asObj?).bind
          (fun f => (jlookup "name" f).bind Json.asStr?) with
      | some name => .obj [("type", .str "function"), ("name", .str name)]
      | none => choice
    else choice
  else choice

/-- `chat_message_content_to_input_items`: derive `input_text` parts
from a Chat message `content` value. -/
def chat_message_content_to_input_items : Option Json → List Json
  | some (.str text) =>
    if isBlank text then []
    else [.obj [("type", .str "input_text"), ("text", .str text)]]
  | some (.arr items) =>
    items.filterMap (fun item =>
      match (item.get? "text").bind Json.asStr? with
      | some text => some (.obj [("type", .str "input_text"), ("text", .str text)])
      | none =>
        ((item.get? "content").bind Json.asStr?).map
          (fun text => .obj [("type", .str "input_text"), ("text", .str text)]))
  | some other =>
    let asText := other.render
    if isBlank asText then []
    else [.obj [("type", .str "input_text"), ("text", .str asText)]]
  | none => []

/-- One Chat message's contribution to the Responses `input` array
(the body of the message loop of `map_chat_to_responses_request`). -/
def chatMessageToInputItems (message : Json) : List Json :=
  let role := ((message.get? "role").bind Json.asStr?).getD "user"
  if role = "tool" then
    let callId := ((message.get? "tool_call_id").bind Json.asStr?).getD ""
    let output := match message.get? "content" with
      | some v => function_output_to_text v
      | none => ""
    [.obj [("type", .str "function_call_output"),
      ("call_id", .str callId), ("output", .str output)]]
  else
    let content := chat_message_content_to_input_items (message.get? "content")
    if content.isEmpty then []
    else [.obj [("type", .str "message"), ("role", .str role),
      ("content", .arr content)]]

/-- `map_chat_to_responses_request`. -/
def map_chat_to_responses_request (request : Json) (stream : Bool) :
    Except String Json :=
  match (request.get? "model").bind Json.asStr? with
  | none => .error "missing `model`"
  | some model =>
  match (request.get? "messages").bind Json.asArr? with
  | none => .error "missing `messages` array"
  | some messages =>
    let input := messages.foldl (fun acc m => acc ++ chatMessageToInputItems m) []
    let tools := match (request.get? "tools").bind Json.asArr? with
      | some v => normalize_responses_tools v
      | none => []
    let toolChoice := match request.get? "tool_choice" with
      | some tc => normalize_responses_tool_choice tc
      | none => .str "auto"
    let parallelToolCalls := ((request.get? "parallel_tool_calls").bind Json.asBool?).getD true
    let out : Json := .obj [("model", .str model), ("input", .arr input),
      ("stream", .bool stream), ("tools", .arr tools),
      ("tool_choice", toolChoice),
      ("parallel_tool_calls", .bool parallelToolCalls)]
    let out := match (out.get? "tools").bind Json.asArr? with
      | some ts => if ts.isEmpty then (out.remove "tools").remove "tool_choice" else out
      | none => out
    .ok out

/-- One Responses input item's contribution to the Chat `messages`
array (the body of the item loop of
`map_responses_to_chat_request_with_stream`).  `uuid` is the fresh-UUID
supply for synthesized `call_id`s and `k` the number of UUIDs consumed
so far; the new count is returned. -/
def respItemToMessages (uuid : Nat → String) (k : Nat) (item : Json) :
    List Json × Nat :=
  let itemType := ((item.get? "type").bind Json.asStr?).getD ""
  if itemType = "message" then
    let role := ((item.get? "role").bind Json.asStr?).getD "user"
    let content := match (item.get? "content").bind Json.asArr? with
      | some parts => flatten_content_items parts
      | none => ""
    if isBlank content then ([], k)
    else ([.obj [("role", .str role), ("content", .str content)]], k)
  else if itemType = "function_call" then
    let name := ((item.get? "name").bind Json.asStr?).getD ""
    if name = "" then ([], k)
    else
      let incomingId := match (item.get? "call_id").bind Json.asStr? with
        | some v => if isBlank v then none else some v
        | none => none
      let (callId, k1) := match incomingId with
        | some v => (v, k)
        | none => ("call_" ++ uuid k, k + 1)
      let arguments := match item.get? "arguments" with
        | some v => function_arguments_to_text v
        | none => "\x7b\x7d"
      ([.obj [("role", .str "assistant"), ("content", .str ""),
        ("tool_calls", .arr [.obj [("id", .str callId),
          ("type", .str "function"),
          ("function", .obj [("name", .str name),
            ("arguments", .str arguments)])]])]], k1)
  else if itemType = "function_call_output" then
    let callId := ((item.get? "call_id").bind Json.asStr?).getD ""
    let outputText := match item.get? "output" with
      | some v => function_output_to_text v
      | none => ""
    ([.obj [("role", .str "tool"), ("tool_call_id", .str callId),
      ("content", .str outputText)]], k)
  else if itemType = "custom_tool_call_output" then
    let callId := ((item.get? "call_id").bind Json.asStr?).getD ""
    let outputText := ((item.get? "output").bind Json.asStr?).getD ""
    ([.obj [("role", .str "tool"), ("tool_call_id", .str callId),
      ("content", .str outputText)]], k)
  else if itemType = "mcp_tool_call_output" then
    let callId := ((item.get? "call_id").bind Json.asStr?).getD ""
    let outputText := match item.get? "result" with
      | some v => v.render
      | none => ""
    ([.obj [("role", .str "tool"), ("tool_call_id", .str callId),
      ("content", .str outputText)]], k)
  else ([], k)

/-- The item loop of `map_responses_to_chat_request_with_stream`:
fold `respItemToMessages` over the input items, threading the UUID
counter. -/
def respItemsToMessages (uuid : Nat → String) (k : Nat) :
    List Json → List Json × Nat
  | [] => ([], k)
  | item :: rest =>
    let (ms, k1) := respItemToMessages uuid k item
    let (rs, k2) := respItemsToMessages uuid k1 rest
    (ms ++ rs, k2)

/-- `map_responses_to_chat_request_with_stream`. -/
def map_responses_to_chat_request_with_stream (uuid : Nat → String)
    (request : Json) (drop : List String) (stream : Bool) :
    Except String Json :=
  match (request.get? "model").bind Json.asStr? with
  | none => .error "missing `model`"
  | some model =>
  match (request.get? "input").bind Json.asArr? with
  | none => .error "missing `input` array"
  | some inputItems =>
    let instructions := ((request.get? "instructions").bind Json.asStr?).getD ""
    let tools := ((request.get? "tools").bind Json.asArr?).getD []
    let toolChoice := (request.get? "tool_choice").getD (.str "auto")
    let parallelToolCalls := ((request.get? "parallel_tool_calls").bind Json.asBool?).getD true
    let sysMessages : List Json :=
      if ¬ isBlank instructions then
        [.obj [("role", .str "system"), ("content", .str instructions)]]
      else []
    let messages := sysMessages ++ (respItemsToMessages uuid 0 inputItems).1
    let chatTools := normalize_chat_tools tools drop
    let chatToolChoice := normalize_tool_choice toolChoice
    let chatRequest : Json := .obj [("model", .str model),
      ("messages", .arr messages), ("stream", .bool stream),
      ("stream_options", .obj [("include_usage", .bool true)]),
      ("tools", .arr chatTools), ("tool_choice", chatToolChoice),
      ("parallel_tool_calls", .bool parallelToolCalls)]
    let chatRequest := if ¬ stream then chatRequest.remove "stream_options" else chatRequest
    let chatRequest := match (chatRequest.get? "tools").bind Json.asArr? with
      | some ts => if ts.isEmpty then (chatRequest.remove "tools").remove "tool_choice" else chatRequest
      | none => chatRequest
    .ok chatRequest

/-- The two incoming endpoints. -/
inductive IncomingApi where
  | responses
  | chat

/-- The upstream wire protocol. -/
inductive WireApi where
  | chat
  | responses

/-- `stream_default_for_api`. -/
def stream_default_for_api : IncomingApi → Bool
  | .responses => true
  | .chat => false

/-- `stream_flag_for_request`. -/
def stream_flag_for_request (incoming : IncomingApi) (request : Json) : Bool :=
  ((request.get? "stream").bind Json.asBool?).getD (stream_default_for_api incoming)

/-- `set_stream_flag`: overwrite `stream` when the payload is an
object, otherwise leave the payload alone. -/
def set_stream_flag (payload : Json) (stream : Bool) : Json :=
  if payload.isObj then payload.insert "stream" (.bool stream) else payload

/-- `build_upstream_payload`.  The drop-set passed to the
Responses-to-Chat mapper is empty here, exactly as in the source (tool
filtering happens earlier, in `apply_request_filters`). -/
def build_upstream_payload (uuid : Nat → String) (request : Json)
    (incoming : IncomingApi) (upstream : WireApi) (stream : Bool) :
    Except String Json := do
  let payload ← match incoming, upstream with
    | .responses, .responses => pure request
    | .responses, .chat =>
      map_responses_to_chat_request_with_stream uuid request [] stream
    | .chat, .chat => pure request
    | .chat, .responses => map_chat_to_responses_request request stream
  pure (set_stream_flag payload stream)

/-- The transcoding step of `handle_incoming`: a failed
`build_upstream_payload` is surfaced with error code
`invalid_request`. -/
def dispatch_transcode (uuid : Nat → String) (request : Json)
    (incoming : IncomingApi) (upstream : WireApi) (stream : Bool) :
    Except (String × String) Json :=
  match build_upstream_payload uuid request incoming upstream stream with
  | .ok v => .ok v
  | .error e => .error ("invalid_request", e)

/-- `SseParser`: a partial-line buffer and the pending `data:` payload
lines of the current event.  Text is modelled as `List Char`. -/
structure SseParser where
  buffer : List Char
  current_data_lines : List (List Char)

/-- Split off all complete (newline-terminated) lines: returns the
lines (without their `\n`) in order and the trailing partial line. -/
def splitCompleteLines : List Char → List (List Char) × List Char
  | [] => ([], [])
  | c :: cs =>
    let r := splitCompleteLines cs
    if c = '\n' then ([] :: r.1, r.2)
    else
      match r.1 with
      | [] => ([], c :: r.2)
      | l :: ls => ((c :: l) :: ls, r.2)

/-- Strip one trailing `\r` (`if line.ends_with('\r') { line.pop(); }`). -/
def stripTrailingCR (line : List Char) : List Char :=
  match line.getLast? with
  | some c => if c = '\r' then line.dropLast else line
  | none => line

/-- `line.strip_prefix("data:")` followed by stripping one optional
leading space. -/
def dataPayloadOfLine (line : List Char) : Option (List Char) :=
  match line with
  | 'd' :: 'a' :: 't' :: 'a' :: ':' :: rest =>
    some (match rest with
      | ' ' :: r => r
      | _ => rest)
  | _ => none

/-- `data_lines.join("\n")`. -/
def joinDataLines (ls : List (List Char)) : List Char :=
  List.intercalate ['\n'] ls

/-- The body of the `SseParser::feed` line loop for one complete line:
returns the events emitted for this line (none or one) and the new
pending `data:` lines. -/
def sseHandleLine (pending : List (List Char)) (rawLine : List Char) :
    List (List Char) × List (List Char) :=
  let line := stripTrailingCR rawLine
  if line = [] then
    if pending = [] then ([], [])
    else ([joinDataLines pending], [])
  else
    match dataPayloadOfLine line with
    | some payload => ([], pending ++ [payload])
    | none => ([], pending)

/-- The `SseParser::feed` line loop over a list of complete lines. -/
def sseHandleLines (pending : List (List Char)) :
    List (List Char) → List (List Char) × List (List Char)
  | [] => ([], pending)
  | l :: ls =>
    let r1 := sseHandleLine pending l
    let r2 := sseHandleLines r1.2 ls
    (r1.1 ++ r2.1, r2.2)

/-- `SseParser::feed`: append the chunk to the buffer, split off every
complete line and process each in order. -/
def SseParser.feed (p : SseParser) (chunk : List Char) :
    List (List Char) × SseParser :=
  let split := splitCompleteLines (p.buffer ++ chunk)
  let handled := sseHandleLines p.current_data_lines split.1
  (handled.1, ⟨split.2, handled.2⟩)

/-- `SseParser::finish`: the pending `data:` lines, if any. -/
def SseParser.finish (p : SseParser) : Option (List Char) :=
  if p.current_data_lines = [] then none
  else some (joinDataLines p.current_data_lines)

/-- A fresh parser (`SseParser::default()`). -/
def sseParserInit : SseParser := ⟨[], []⟩

/-- Feed a list of chunks in order to a parser, collecting all events
and the final parser. -/
def sseFeedAll (p : SseParser) : List (List Char) → List (List Char) × SseParser
  | [] => ([], p)
  | c :: cs =>
    let r1 := p.feed c
    let r2 := sseFeedAll r1.2 cs
    (r1.1 ++ r2.1, r2.2)

/-- Feed the chunks to a fresh parser, then call `finish()`: the full
sequence of completed-event payloads, including the optional trailing
payload. -/
def sseRun (chunks : List (List Char)) : List (List Char) :=
  let r := sseFeedAll sseParserInit chunks
  r.1 ++ r.2.finish.toList

/-- `ChatFunctionDelta`.  All streaming-side text is `List Char`, like
the SSE parser's. -/
structure ChatFunctionDelta where
  name : Option (List Char)
  arguments : Option (List Char)
deriving DecidableEq

/-- `ChatToolCallDelta`. -/
structure ChatToolCallDelta where
  index : Option Nat
  id : Option (List Char)
  function : Option ChatFunctionDelta
deriving DecidableEq

/-- `ChatDelta`. -/
structure ChatDelta where
  content : Option (List Char)
  tool_calls : Option (List ChatToolCallDelta)
deriving DecidableEq

/-- `ChatChoice` (the unused `finish_reason` field is omitted). -/
structure ChatChoice where
  delta : Option ChatDelta
deriving DecidableEq

/-- `ChatUsage`. -/
structure ChatUsage where
  prompt_tokens : Int
  completion_tokens : Int
  total_tokens : Int
deriving DecidableEq

/-- `ChatChunk` (the unused `id` field is omitted). -/
structure ChatChunk where
  choices : List ChatChoice
  usage : Option ChatUsage
deriving DecidableEq

/-- `ToolCallAccumulator`. -/
structure ToolCallAccumulator where
  id : Option (List Char)
  name : Option (List Char)
  arguments : List Char
deriving DecidableEq

/-- `ToolCallAccumulator::default()`. -/
def tcDefault : ToolCallAccumulator := ⟨none, none, []⟩

/-- The accumulator's `BTreeMap<usize, ToolCallAccumulator>`, as an
association list sorted strictly ascending by key. -/
abbrev TCMap := List (Nat × ToolCallAccumulator)

/-- Lookup in the tool-call map. -/
def tcLookup (m : TCMap) (k : Nat) : Option ToolCallAccumulator :=
  match m with
  | [] => none
  | (k1, v) :: rest => if k1 = k then some v else tcLookup rest k

/-- `acc.tool_calls.entry(index).or_default()` followed by mutating the
entry with `f`: update in place when the key exists, otherwise insert
`f tcDefault` at the sorted position. -/
def tcUpdate (m : TCMap) (k : Nat) (f : ToolCallAccumulator → ToolCallAccumulator) :
    TCMap :=
  match m with
  | [] => [(k, f tcDefault)]
  | (k1, v) :: rest =>
    if k < k1 then (k, f tcDefault) :: (k1, v) :: rest
    else if k = k1 then (k1, f v) :: rest
    else (k1, v) :: tcUpdate rest k f

/-- `StreamAccumulator`. -/
structure StreamAccumulator where
  assistant_text : List Char
  tool_calls : TCMap
  usage : Option ChatUsage

/-- `StreamAccumulator::default()`. -/
def saInit : StreamAccumulator := ⟨[], [], none⟩

/-- One event of the translated Responses stream. -/
inductive RespEvent where
  | created (id : List Char)
  | output_item_added
  | output_text_delta (delta : List Char)
  | output_item_done_message (text : List Char)
  | output_item_done_function_call (name arguments call_id : List Char)
  | completed (id : List Char) (usage : Option ChatUsage)
  | failed (id code message : List Char)
deriving DecidableEq

/-- Apply one tool-call fragment's field updates to an accumulator
entry: assign `id` and `name` when present, append `arguments`. -/
def applyToolCallFields (entry : ToolCallAccumulator) (tc : ChatToolCallDelta) :
    ToolCallAccumulator :=
  let entry := match tc.id with
    | some i => { entry with id := some i }
    | none => entry
  match tc.function with
  | some f =>
    let entry := match f.name with
      | some n => { entry with name := some n }
      | none => entry
    match f.arguments with
    | some a => { entry with arguments := entry.arguments ++ a }
    | none => entry
  | none => entry

/-- Process one tool-call fragment: resolve its index (explicit, or the
current entry count) and update that entry. -/
def applyToolCallDelta (m : TCMap) (tc : ChatToolCallDelta) : TCMap :=
  let index := tc.index.getD m.length
  tcUpdate m index (fun entry => applyToolCallFields entry tc)

/-- Process one choice's `delta`: maybe announce the assistant item and
emit a text delta, then fold the tool-call fragments into the map.
Returns (events, accumulator, announced-flag). -/
def processChoice (acc : StreamAccumulator) (added : Bool) (choice : ChatChoice) :
    List RespEvent × StreamAccumulator × Bool :=
  match choice.delta with
  | none => ([], acc, added)
  | some delta =>
    let contentStep :=
      match delta.content with
      | some content =>
        if ¬ content = [] then
          (((if ¬ added then [RespEvent.output_item_added] else [])
              ++ [RespEvent.output_text_delta content]),
            { acc with assistant_text := acc.assistant_text ++ content },
            true)
        else ([], acc, added)
      | none => ([], acc, added)
    let acc1 := contentStep.2.1
    let acc2 :=
      match delta.tool_calls with
      | some tcs => { acc1 with tool_calls := tcs.foldl applyToolCallDelta acc1.tool_calls }
      | none => acc1
    (contentStep.1, acc2, contentStep.2.2)

/-- The choice loop of one decoded chunk. -/
def processChoices (acc : StreamAccumulator) (added : Bool) :
    List ChatChoice → List RespEvent × StreamAccumulator × Bool
  | [] => ([], acc, added)
  | c :: cs =>
    let r1 := processChoice acc added c
    let r2 := processChoices r1.2.1 r1.2.2 cs
    (r1.1 ++ r2.1, r2.2)

/-- Process one SSE payload: skip the `[DONE]` sentinel, skip payloads
the decoder rejects, otherwise record `usage` and process the
choices. -/
def processPayload (decode : List Char → Option ChatChunk)
    (acc : StreamAccumulator) (added : Bool) (data : List Char) :
    List RespEvent × StreamAccumulator × Bool :=
  if data = "[DONE]".toList then ([], acc, added)
  else
    match decode data with
    | none => ([], acc, added)
    | some chunk =>
      let acc := match chunk.usage with
        | some u => { acc with usage := some u }
        | none => acc
      processChoices acc added chunk.choices

/-- The payload loop over one upstream chunk's completed events. -/
def processPayloads (decode : List Char → Option ChatChunk)
    (acc : StreamAccumulator) (added : Bool) :
    List (List Char) → List RespEvent × StreamAccumulator × Bool
  | [] => ([], acc, added)
  | d :: ds =>
    let r1 := processPayload decode acc added d
    let r2 := processPayloads decode r1.2.1 r1.2.2 ds
    (r1.1 ++ r2.1, r2.2)

/-- The trailing events after upstream end-of-stream: the assistant
message item (when any text accumulated), the `function_call` items in
map order, and the final `response.completed`.  `uuid i` stands for the
`Uuid::now_v7()` drawn for the entry at index `i`. -/
def finishEvents (uuid : Nat → List Char) (respId : List Char)
    (acc : StreamAccumulator) : List RespEvent :=
  (if ¬ acc.assistant_text = [] then
    [RespEvent.output_item_done_message acc.assistant_text]
  else [])
  ++ acc.tool_calls.map (fun p =>
    RespEvent.output_item_done_function_call
      (p.2.name.getD "unknown_function".toList)
      p.2.arguments
      (p.2.id.getD ("call_".toList ++ uuid p.1 ++ "_".toList ++ (toString p.1).toList)))
  ++ [RespEvent.completed respId acc.usage]

/-- The chunk-reading loop of `translate_chat_stream`: a read error
emits one `response.failed` and stops; end of stream emits the trailing
events.  (The `parser.finish()` check at end of stream only logs and
emits nothing.) -/
def translateLoop (decode : List Char → Option ChatChunk) (uuid : Nat → List Char)
    (respId : List Char) (p : SseParser) (acc : StreamAccumulator) (added : Bool) :
    List (Except (List Char) (List Char)) → List RespEvent
  | [] => finishEvents uuid respId acc
  | (.error e) :: _ => [RespEvent.failed respId "upstream_stream_error".toList e]
  | (.ok chunk) :: rest =>
    let fed := p.feed chunk
    let r := processPayloads decode acc added fed.1
    r.1 ++ translateLoop decode uuid respId fed.2 r.2.1 r.2.2 rest

/-- `translate_chat_stream`: emit `response.created`, then run the
chunk loop from fresh parser and accumulator state. -/
def translate_chat_stream (decode : List Char → Option ChatChunk)
    (uuid : Nat → List Char) (respId : List Char)
    (chunks : List (Except (List Char) (List Char))) : List RespEvent :=
  RespEvent.created respId :: translateLoop decode uuid respId sseParserInit saInit false chunks

/-- Event classifiers used by the stream-envelope statements. -/
def RespEvent.isCreated : RespEvent → Bool
  | .created _ => true
  | _ => false

/-- Is this the assistant `response.output_item.added` event? -/
def RespEvent.isAdded : RespEvent → Bool
  | .output_item_added => true
  | _ => false

/-- Is this a `response.output_text.delta` event? -/
def RespEvent.isDelta : RespEvent → Bool
  | .output_text_delta _ => true
  | _ => false

/-- Is this a terminal event (`response.completed` or
`response.failed`)? -/
def RespEvent.isTerminal : RespEvent → Bool
  | .completed _ _ => true
  | .failed _ _ _ => true
  | _ => false

/-- Is this a `response.completed` event? -/
def RespEvent.isCompleted : RespEvent → Bool
  | .completed _ _ => true
  | _ => false

/-- Is this a `response.failed` event? -/
def RespEvent.isFailed : RespEvent → Bool
  | .failed _ _ _ => true
  | _ => false

/-- The delta payloads of a translated event stream, in order. -/
def deltaTexts : List RespEvent → List (List Char)
  | [] => []
  | .output_text_delta d :: rest => d :: deltaTexts rest
  | _ :: rest => deltaTexts rest

/-- The texts of the message-shaped `response.output_item.done` events,
in order. -/
def msgDoneTexts : List RespEvent → List (List Char)
  | [] => []
  | .output_item_done_message t :: rest => t :: msgDoneTexts rest
  | _ :: rest => msgDoneTexts rest

/-- The `(name, arguments, call_id)` triples of the function_call-shaped
`response.output_item.done` events, in order. -/
def fnDoneItems : List RespEvent → List (List Char × List Char × List Char)
  | [] => []
  | .output_item_done_function_call n a c :: rest => (n, a, c) :: fnDoneItems rest
  | _ :: rest => fnDoneItems rest

/-- The message of the first read error in the fed chunk sequence, if
any. -/
def firstReadError : List (Except (List Char) (List Char)) → Option (List Char)
  | [] => none
  | (.error e) :: _ => some e
  | (.ok _) :: rest => firstReadError rest

/-- The chunk texts, for an all-ok chunk sequence. -/
def okChunkTexts : List (Except (List Char) (List Char)) → List (List Char)
  | [] => []
  | (.ok c) :: rest => c :: okChunkTexts rest
  | (.error _) :: _ => []

/-- The parser/accumulator/flag state after reading a list of upstream
chunk texts (the state threading of `translateLoop`, without the
events). -/
def translateRunState (decode : List Char → Option ChatChunk) (p : SseParser)
    (acc : StreamAccumulator) (added : Bool) :
    List (List Char) → SseParser × StreamAccumulator × Bool
  | [] => (p, acc, added)
  | c :: cs =>
    let fed := p.feed c
    let r := processPayloads decode acc added fed.1
    translateRunState decode fed.2 r.2.1 r.2.2 cs

/-- The accumulator at end of stream for an all-ok chunk sequence. -/
def finalAccumulator (decode : List Char → Option ChatChunk)
    (chunks : List (Except (List Char) (List Char))) : StreamAccumulator :=
  (translateRunState decode sseParserInit saInit false (okChunkTexts chunks)).2.1

/-- The arrival-ordered trace of tool-call fragments with their resolved
indices, for one fragment list processed against map `m`. -/
def resolveToolCalls (m : TCMap) : List ChatToolCallDelta → List (Nat × ChatToolCallDelta)
  | [] => []
  | tc :: tcs =>
    let index := tc.index.getD m.length
    (index, tc) :: resolveToolCalls (tcUpdate m index (fun e => applyToolCallFields e tc)) tcs

/-- Resolved fragment trace for one choice. -/
def choiceToolCallTrace (acc : StreamAccumulator) (choice : ChatChoice) :
    List (Nat × ChatToolCallDelta) :=
  match choice.delta with
  | none => []
  | some delta =>
    match delta.tool_calls with
    | some tcs => resolveToolCalls acc.tool_calls tcs
    | none => []

/-- Resolved fragment trace for a choice list. -/
def choicesToolCallTrace (acc : StreamAccumulator) (added : Bool) :
    List ChatChoice → List (Nat × ChatToolCallDelta)
  | [] => []
  | c :: cs =>
    let r := processChoice acc added c
    choiceToolCallTrace acc c ++ choicesToolCallTrace r.2.1 r.2.2 cs

/-- Resolved fragment trace for one SSE payload. -/
def payloadToolCallTrace (decode : List Char → Option ChatChunk)
    (acc : StreamAccumulator) (added : Bool) (data : List Char) :
    List (Nat × ChatToolCallDelta) :=
  if data = "[DONE]".toList then []
  else
    match decode data with
    | none => []
    | some chunk =>
      let acc := match chunk.usage with
        | some u => { acc with usage := some u }
        | none => acc
      choicesToolCallTrace acc added chunk.choices

/-- Resolved fragment trace for a payload list. -/
def payloadsToolCallTrace (decode : List Char → Option ChatChunk)
    (acc : StreamAccumulator) (added : Bool) :
    List (List Char) → List (Nat × ChatToolCallDelta)
  | [] => []
  | d :: ds =>
    let r := processPayload decode acc added d
    payloadToolCallTrace decode acc added d
      ++ payloadsToolCallTrace decode r.2.1 r.2.2 ds

/-- Resolved fragment trace for a list of upstream chunk texts. -/
def chunksToolCallTrace (decode : List Char → Option ChatChunk) (p : SseParser)
    (acc : StreamAccumulator) (added : Bool) :
    List (List Char) → List (Nat × ChatToolCallDelta)
  | [] => []
  | c :: cs =>
    let fed := p.feed c
    let r := processPayloads decode acc added fed.1
    payloadsToolCallTrace decode acc added fed.1
      ++ chunksToolCallTrace decode fed.2 r.2.1 r.2.2 cs

/-- The arrival-ordered resolved tool-call fragments of a whole
translated stream (all-ok chunk sequence). -/
def streamToolCallTrace (decode : List Char → Option ChatChunk)
    (chunks : List (Except (List Char) (List Char))) : List (Nat × ChatToolCallDelta) :=
  chunksToolCallTrace decode sseParserInit saInit false (okChunkTexts chunks)

/-- The fragments of a trace that were assigned to index `i`, in
arrival order. -/
def fragmentsFor (i : Nat) (trace : List (Nat × ChatToolCallDelta)) :
    List ChatToolCallDelta :=
  (trace.filter (fun q => q.1 = i)).map (fun q => q.2)

/-- Combine an arrival-ordered fragment list into an accumulator entry:
last `id` wins, last `name` wins, argument fragments concatenate. -/
def combineFragments (fs : List ChatToolCallDelta) : ToolCallAccumulator :=
  fs.foldl applyToolCallFields tcDefault

/-- Apply a resolved fragment trace to a map. -/
def applyTrace (m : TCMap) (ops : List (Nat × ChatToolCallDelta)) : TCMap :=
  ops.foldl (fun m q => tcUpdate m q.1 (fun e => applyToolCallFields e q.2)) m

/-- The argument string carried by one fragment, if any. -/
def fragmentArgument (tc : ChatToolCallDelta) : Option (List Char) :=
  tc.function.bind ChatFunctionDelta.arguments

/-- The name carried by one fragment, if any. -/
def fragmentName (tc : ChatToolCallDelta) : Option (List Char) :=
  tc.function.bind ChatFunctionDelta.name

/-- The wrapped-shape well-formedness predicate of the tool-envelope
claim: a tool of type `function` must carry a `function` object with
`name`, `description` and `parameters` keys and a non-null
`parameters`. -/
def chatToolWrappedOk (tool : Json) : Bool :=
  if (tool.get? "type").bind Json.asStr? = some "function" then
    match tool.get? "function" with
    | some fn =>
      (fn.get? "name").isSome && (fn.get? "description").isSome &&
      (match fn.get? "parameters" with
        | some .null => false
        | some _ => true
        | none => false)
    | none => false
  else true

/-- The `id` of the first entry of a Chat message's `tool_calls` array
(observer used to state the call-id synthesis claim). -/
def firstToolCallId (msg : Json) : Option Json :=
  (((msg.get? "tool_calls").bind Json.asArr?).bind List.head?).bind
    (fun tc => tc.get? "id")

/-- A `response.output_text.delta` event carrying non-empty text. -/
def RespEvent.isNonemptyDelta : RespEvent → Bool
  | .output_text_delta d => ¬ d = []
  | _ => false

/-- Shape of the added/delta events a stretch of the translated stream
may emit, given the announced-flag before (`added`) and after
(`added1`): once announced, only non-empty deltas; before that, either
nothing, or exactly one `output_item.added` followed by non-empty
deltas. -/
def MidOk (added added1 : Bool) (evs : List RespEvent) : Prop :=
  match added with
  | true => added1 = true ∧ ∀ e ∈ evs, e.isNonemptyDelta = true
  | false =>
    (added1 = false ∧ evs = []) ∨
    (added1 = true ∧ ∃ ds, evs = RespEvent.output_item_added :: ds ∧
      ∀ e ∈ ds, e.isNonemptyDelta = true)

theorem bind_asStr_eq_some {o : Option Json} {s : String} :
    o.bind Json.asStr? = some s ↔ o = some (.str s) := by
  cases o with
  | none => simp
  | some v => cases v <;> simp [Json.asStr?]

theorem bind_asArr_eq_some {o : Option Json} {xs : List Json} :
    o.bind Json.asArr? = some xs ↔ o = some (.arr xs) := by
  cases o with
  | none => simp
  | some v => cases v <;> simp [Json.asArr?]

theorem bind_asBool_eq_some {o : Option Json} {b : Bool} :
    o.bind Json.asBool? = some b ↔ o = some (.bool b) := by
  cases o with
  | none => simp
  | some v => cases v <;> simp [Json.asBool?]

/-- C5: the dispatcher uses an explicit boolean `stream` field when
present; otherwise the per-schema default applies — streaming for
Responses, unary for Chat. -/
theorem C5_stream_mode_selection (req : Json) :
    (∀ (api : IncomingApi) (b : Bool),
        req.get? "stream" = some (.bool b) → stream_flag_for_request api req = b) ∧
    ((∀ b : Bool, ¬ req.get? "stream" = some (.bool b)) →
      stream_flag_for_request .responses req = true ∧
      stream_flag_for_request .chat req = false) := by
  constructor
  · intro api b h
    simp [stream_flag_for_request, h, Json.asBool?]
  · intro h
    have hb : (req.get? "stream").bind Json.asBool? = none := by
      cases ho : req.get? "stream" with
      | none => rfl
      | some v =>
        cases v with
        | bool b => exact absurd ho (h b)
        | null => rfl
        | num n => rfl
        | str s => rfl
        | arr xs => rfl
        | obj kvs => rfl
    simp [stream_flag_for_request, hb, stream_default_for_api]

theorem C5_stream_mode_selection_witness :
    stream_flag_for_request .responses (Json.obj [("stream", .bool false)]) = false ∧
    stream_flag_for_request .chat (Json.obj [("model", .str "m")]) = false := by
  constructor
  · exact (C5_stream_mode_selection _).1 .responses false rfl
  · exact ((C5_stream_mode_selection _).2
      (fun b h => by simp [Json.get?, jlookup] at h)).2

/-- C8: the Responses-to-Chat transcoder succeeds exactly when the
request carries a string `model` and an array `input`; a failure is
surfaced by the dispatcher with code `invalid_request`. -/
theorem C8_required_fields (uuid : Nat → String) (req : Json)
    (drop : List String) (stream : Bool) :
    ((∃ v, map_responses_to_chat_request_with_stream uuid req drop stream = .ok v) ↔
      ((∃ m, req.get? "model" = some (.str m)) ∧
        (∃ xs, req.get? "input" = some (.arr xs)))) ∧
    (∀ code msg,
      dispatch_transcode uuid req .responses .chat stream = .error (code, msg) →
      code = "invalid_request") := by
  constructor
  · constructor
    · rintro ⟨v, hv⟩
      cases hm : (req.get? "model").bind Json.asStr? with
      | none => simp [map_responses_to_chat_request_with_stream, hm] at hv
      | some model =>
        cases hi : (req.get? "input").bind Json.asArr? with
        | none => simp [map_responses_to_chat_request_with_stream, hm, hi] at hv
        | some xs =>
          exact ⟨⟨model, bind_asStr_eq_some.mp hm⟩, ⟨xs, bind_asArr_eq_some.mp hi⟩⟩
    · rintro ⟨⟨m, hm⟩, ⟨xs, hi⟩⟩
      unfold map_responses_to_chat_request_with_stream
      rw [bind_asStr_eq_some.mpr hm, bind_asArr_eq_some.mpr hi]
      exact ⟨_, rfl⟩
  · intro code msg h
    unfold dispatch_transcode at h
    cases hb : build_upstream_payload uuid req .responses .chat stream with
    | ok v => rw [hb] at h; simp at h
    | error e =>
      rw [hb] at h
      simp only [Except.error.injEq, Prod.mk.injEq] at h
      exact h.1.symm

theorem C8_required_fields_witness :
    (∃ v, map_responses_to_chat_request_with_stream (fun _ => "u")
      (Json.obj [("model", .str "m"), ("input", .arr [])]) [] true = .ok v) ∧
    (∀ code msg, dispatch_transcode (fun _ => "u") (Json.obj [])
        .responses .chat true = .error (code, msg) → code = "invalid_request") :=
  ⟨(C8_required_fields (fun _ => "u") _ [] true).1.mpr ⟨⟨"m", rfl⟩, ⟨[], rfl⟩⟩,
    (C8_required_fields (fun _ => "u") (Json.obj []) [] true).2⟩

/-- C10: for a `function_call` input item with a non-empty name, the
incoming `call_id` is used verbatim exactly when it is a string with at
least one non-whitespace character; otherwise (absent, non-string, or
all-whitespace) a fresh `call_<uuid>` identifier is synthesized. -/
theorem C10_call_id_whitespace (uuid : Nat → String) (k : Nat) (item : Json)
    (name : String)
    (htype : (item.get? "type").bind Json.asStr? = some "function_call")
    (hname : (item.get? "name").bind Json.asStr? = some name)
    (hne : ¬ name = "") :
    (∀ s, (item.get? "call_id").bind Json.asStr? = some s → isBlank s = false →
      (respItemToMessages uuid k item).1.length = 1 ∧
      ((respItemToMessages uuid k item).1.head?.bind firstToolCallId
        = some (.str s)) ∧
      (respItemToMessages uuid k item).2 = k) ∧
    (((item.get? "call_id").bind Json.asStr? = none ∨
        (∃ s, (item.get? "call_id").bind Json.asStr? = some s ∧ isBlank s = true)) →
      (respItemToMessages uuid k item).1.length = 1 ∧
      ((respItemToMessages uuid k item).1.head?.bind firstToolCallId
        = some (.str ("call_" ++ uuid k))) ∧
      (respItemToMessages uuid k item).2 = k + 1) := by
  have hT : ((item.get? "type").bind Json.asStr?).getD "" = "function_call" := by
    rw [htype]; rfl
  have hN : ((item.get? "name").bind Json.asStr?).getD "" = name := by
    rw [hname]; rfl
  constructor
  · intro s hs hb
    simp only [respItemToMessages, hT, hN, hs]
    simp [hne, hb, firstToolCallId, Json.get?, jlookup, Json.asArr?]
  · intro hcid
    rcases hcid with hnone | ⟨s, hs, hblank⟩
    · simp only [respItemToMessages, hT, hN, hnone]
      simp [hne, firstToolCallId, Json.get?, jlookup, Json.asArr?]
    · simp only [respItemToMessages, hT, hN, hs]
      simp [hne, hblank, firstToolCallId, Json.get?, jlookup, Json.asArr?]

theorem C10_call_id_whitespace_witness :
    ((respItemToMessages (fun _ => "u0") 0
        (Json.obj [("type", .str "function_call"), ("name", .str "f"),
          ("call_id", .str "  ")])).1.head?.bind firstToolCallId
      = some (.str ("call_" ++ "u0"))) ∧
    ((respItemToMessages (fun _ => "u0") 0
        (Json.obj [("type", .str "function_call"), ("name", .str "f"),
          ("call_id", .str "\x0B")])).1.head?.bind firstToolCallId
      = some (.str ("call_" ++ "u0"))) ∧
    ((respItemToMessages (fun _ => "u0") 0
        (Json.obj [("type", .str "function_call"), ("name", .str "f"),
          ("call_id", .str "kept")])).1.head?.bind firstToolCallId
      = some (.str "kept")) := by
  refine ⟨?_, ?_, ?_⟩
  · exact ((C10_call_id_whitespace (fun _ => "u0") 0
      (Json.obj [("type", .str "function_call"), ("name", .str "f"),
        ("call_id", .str "  ")]) "f" rfl rfl (by decide)).2
      (Or.inr ⟨"  ", rfl, by decide⟩)).2.1
  · exact ((C10_call_id_whitespace (fun _ => "u0") 0
      (Json.obj [("type", .str "function_call"), ("name", .str "f"),
        ("call_id", .str "\x0B")]) "f" rfl rfl (by decide)).2
      (Or.inr ⟨"\x0B", rfl, by decide⟩)).2.1
  · exact ((C10_call_id_whitespace (fun _ => "u0") 0
      (Json.obj [("type", .str "function_call"), ("name", .str "f"),
        ("call_id", .str "kept")]) "f" rfl rfl (by decide)).1
      "kept" rfl (by decide)).2.1

theorem jlookup_jinsert_self (k : String) (v : Json) (kvs : List (String × Json)) :
    jlookup k (jinsert k v kvs) = some v := by
  induction kvs with
  | nil => simp [jinsert, jlookup]
  | cons p rest ih =>
    obtain ⟨k1, v1⟩ := p
    by_cases hk : k1 = k
    · simp [jinsert, hk, jlookup]
    · simp [jinsert, hk, jlookup, ih]

theorem isObj_remove (j : Json) (k : String) : (j.remove k).isObj = j.isObj := by
  cases j <;> rfl

theorem get_set_stream_flag (p : Json) (mode : Bool) (hp : p.isObj = true) :
    (set_stream_flag p mode).get? "stream" = some (.bool mode) := by
  cases p with
  | obj kvs =>
    simp [set_stream_flag, Json.isObj, Json.insert, Json.get?,
      jlookup_jinsert_self]
  | null => simp [Json.isObj] at hp
  | bool b => simp [Json.isObj] at hp
  | num n => simp [Json.isObj] at hp
  | str s => simp [Json.isObj] at hp
  | arr xs => simp [Json.isObj] at hp

theorem map_responses_ok_isObj (uuid : Nat → String) (req : Json)
    (drop : List String) (stream : Bool) (v : Json)
    (h : map_responses_to_chat_request_with_stream uuid req drop stream = .ok v) :
    v.isObj = true := by
  unfold map_responses_to_chat_request_with_stream at h
  split at h
  · simp at h
  · split at h
    · simp at h
    · rw [Except.ok.injEq] at h
      subst h
      split
      · split <;> simp [isObj_remove] <;> split <;> simp [Json.isObj, Json.remove]
      · split <;> simp [Json.isObj, Json.remove]

theorem map_chat_ok_isObj (req : Json) (stream : Bool) (v : Json)
    (h : map_chat_to_responses_request req stream = .ok v) :
    v.isObj = true := by
  unfold map_chat_to_responses_request at h
  split at h
  · simp at h
  · split at h
    · simp at h
    · rw [Except.ok.injEq] at h
      subst h
      split
      · split <;> simp [isObj_remove, Json.isObj, Json.remove]
      · simp [Json.isObj]

/-- C4 counterexample: for a non-object incoming body on the
passthrough branch, `build_upstream_payload` succeeds but the payload
has no `stream` field at all, so the field does not equal the chosen
mode. -/
theorem C4_counterexample :
    build_upstream_payload (fun _ => "u") (Json.arr []) .responses .responses true
      = .ok (Json.arr []) ∧
    (Json.arr []).get? "stream" = none := by
  constructor
  · rfl
  · rfl

/-- C4 (amended): provided the incoming request body is a JSON object,
every successful `build_upstream_payload` result carries a top-level
`stream` field equal to the mode chosen by the dispatcher, for every
schema pair and regardless of any `stream` field in the incoming
body. -/
theorem C4_stream_override (uuid : Nat → String) (req : Json)
    (inc : IncomingApi) (up : WireApi) (mode : Bool) (v : Json)
    (hobj : req.isObj = true)
    (h : build_upstream_payload uuid req inc up mode = .ok v) :
    v.get? "stream" = some (.bool mode) := by
  cases inc <;> cases up
  · -- responses → chat
    unfold build_upstream_payload at h
    cases hm : map_responses_to_chat_request_with_stream uuid req [] mode with
    | ok w =>
      rw [hm] at h
      simp only [bind, Except.bind, pure, Except.pure, Except.ok.injEq] at h
      subst h
      exact get_set_stream_flag w mode (map_responses_ok_isObj _ _ _ _ _ hm)
    | error e =>
      rw [hm] at h
      simp [bind, Except.bind] at h
  · -- responses → responses (passthrough)
    simp only [build_upstream_payload, bind, Except.bind, pure, Except.pure,
      Except.ok.injEq] at h
    subst h
    exact get_set_stream_flag req mode hobj
  · -- chat → chat (passthrough)
    simp only [build_upstream_payload, bind, Except.bind, pure, Except.pure,
      Except.ok.injEq] at h
    subst h
    exact get_set_stream_flag req mode hobj
  · -- chat → responses
    unfold build_upstream_payload at h
    cases hm : map_chat_to_responses_request req mode with
    | ok w =>
      rw [hm] at h
      simp only [bind, Except.bind, pure, Except.pure, Except.ok.injEq] at h
      subst h
      exact get_set_stream_flag w mode (map_chat_ok_isObj _ _ _ hm)
    | error e =>
      rw [hm] at h
      simp [bind, Except.bind] at h

theorem C4_stream_override_witness :
    (Json.obj [("model", .str "m"), ("stream", .bool true)]).isObj = true ∧
    build_upstream_payload (fun _ => "u")
      (Json.obj [("model", .str "m"), ("stream", .bool true)])
      .chat .chat false = .ok (Json.obj [("model", .str "m"), ("stream", .bool false)]) ∧
    (Json.obj [("model", .str "m"), ("stream", .bool false)]).get? "stream"
      = some (.bool false) :=
  ⟨rfl, rfl,
    C4_stream_override (fun _ => "u")
      (Json.obj [("model", .str "m"), ("stream", .bool true)])
      .chat .chat false
      (Json.obj [("model", .str "m"), ("stream", .bool false)]) rfl rfl⟩

theorem jlookup_cons (k k1 : String) (v : Json) (rest : List (String × Json)) :
    jlookup k ((k1, v) :: rest) = if k1 = k then some v else jlookup k rest := rfl

theorem jlookup_filter_self (k : String) (kvs : List (String × Json)) :
    jlookup k (kvs.filter (fun p => ¬ p.1 = k)) = none := by
  induction kvs with
  | nil => rfl
  | cons p rest ih =>
    obtain ⟨k1, v1⟩ := p
    rw [List.filter_cons]
    by_cases hk : k1 = k
    · rw [if_neg (by simp [hk])]
      exact ih
    · rw [if_pos (by simp [hk]), jlookup_cons, if_neg hk]
      exact ih

theorem jlookup_filter_other (k k1 : String) (h : ¬ k1 = k)
    (kvs : List (String × Json)) :
    jlookup k1 (kvs.filter (fun p => ¬ p.1 = k)) = jlookup k1 kvs := by
  induction kvs with
  | nil => rfl
  | cons p rest ih =>
    obtain ⟨ka, va⟩ := p
    by_cases hka : ka = k
    · have hka1 : ¬ ka = k1 := fun hc => h (hc ▸ hka)
      rw [List.filter_cons, if_neg (by simp [hka]), jlookup_cons, if_neg hka1]
      exact ih
    · rw [List.filter_cons, if_pos (by simp [hka]), jlookup_cons, jlookup_cons]
      by_cases hka1 : ka = k1
      · rw [if_pos hka1, if_pos hka1]
      · rw [if_neg hka1, if_neg hka1]
        exact ih

theorem get_remove_self (j : Json) (k : String) : (j.remove k).get? k = none := by
  cases j with
  | obj kvs => exact jlookup_filter_self k kvs
  | null => rfl
  | bool b => rfl
  | num n => rfl
  | str s => rfl
  | arr xs => rfl

theorem get_remove_other (j : Json) (k k1 : String) (h : ¬ k1 = k) :
    (j.remove k).get? k1 = j.get? k1 := by
  cases j with
  | obj kvs => exact jlookup_filter_other k k1 h kvs
  | null => rfl
  | bool b => rfl
  | num n => rfl
  | str s => rfl
  | arr xs => rfl

theorem get_obj (kvs : List (String × Json)) (k : String) :
    (Json.obj kvs).get? k = jlookup k kvs := rfl

theorem chatRequestLit_get_tools (model : String) (messages : List Json)
    (stream : Bool) (tools : List Json) (tc : Json) (ptc : Bool) :
    ((if ¬ stream then
        (Json.obj [("model", .str model), ("messages", .arr messages),
          ("stream", .bool stream),
          ("stream_options", .obj [("include_usage", .bool true)]),
          ("tools", .arr tools), ("tool_choice", tc),
          ("parallel_tool_calls", .bool ptc)]).remove "stream_options"
      else
        Json.obj [("model", .str model), ("messages", .arr messages),
          ("stream", .bool stream),
          ("stream_options", .obj [("include_usage", .bool true)]),
          ("tools", .arr tools), ("tool_choice", tc),
          ("parallel_tool_calls", .bool ptc)]) : Json).get? "tools"
      = some (.arr tools) := by
  by_cases hs : (¬ stream = true)
  · rw [if_pos hs, get_remove_other _ _ _ (by decide)]
    simp [get_obj, jlookup_cons]
  · rw [if_neg hs]
    simp [get_obj, jlookup_cons]

theorem chatRequestLit_get_tool_choice (model : String) (messages : List Json)
    (stream : Bool) (tools : List Json) (tc : Json) (ptc : Bool) :
    ((if ¬ stream then
        (Json.obj [("model", .str model), ("messages", .arr messages),
          ("stream", .bool stream),
          ("stream_options", .obj [("include_usage", .bool true)]),
          ("tools", .arr tools), ("tool_choice", tc),
          ("parallel_tool_calls", .bool ptc)]).remove "stream_options"
      else
        Json.obj [("model", .str model), ("messages", .arr messages),
          ("stream", .bool stream),
          ("stream_options", .obj [("include_usage", .bool true)]),
          ("tools", .arr tools), ("tool_choice", tc),
          ("parallel_tool_calls", .bool ptc)]) : Json).get? "tool_choice"
      = some tc := by
  by_cases hs : (¬ stream = true)
  · rw [if_pos hs, get_remove_other _ _ _ (by decide)]
    simp [get_obj, jlookup_cons]
  · rw [if_neg hs]
    simp [get_obj, jlookup_cons]

theorem responsesOutLit_get_tools (model : String) (input : List Json)
    (stream : Bool) (tools : List Json) (tc : Json) (ptc : Bool) :
    (Json.obj [("model", .str model), ("input", .arr input),
      ("stream", .bool stream), ("tools", .arr tools), ("tool_choice", tc),
      ("parallel_tool_calls", .bool ptc)]).get? "tools" = some (.arr tools) := by
  simp [get_obj, jlookup_cons]

theorem responsesOutLit_get_tool_choice (model : String) (input : List Json)
    (stream : Bool) (tools : List Json) (tc : Json) (ptc : Bool) :
    (Json.obj [("model", .str model), ("input", .arr input),
      ("stream", .bool stream), ("tools", .arr tools), ("tool_choice", tc),
      ("parallel_tool_calls", .bool ptc)]).get? "tool_choice" = some tc := by
  simp [get_obj, jlookup_cons]

/-- C6: after either transcoding direction, the `tools` key is present
iff the `tool_choice` key is present, and a present `tools` key always
carries a non-empty list. -/
theorem C6_tools_tool_choice (uuid : Nat → String) (req : Json)
    (drop : List String) (stream : Bool) (v : Json)
    (h : map_responses_to_chat_request_with_stream uuid req drop stream = .ok v ∨
      map_chat_to_responses_request req stream = .ok v) :
    ((v.get? "tools").isSome = true ↔ (v.get? "tool_choice").isSome = true) ∧
    (∀ ts, v.get? "tools" = some (.arr ts) → ¬ ts = []) := by
  rcases h with h | h
  · cases hm : (req.get? "model").bind Json.asStr? with
    | none => rw [map_responses_to_chat_request_with_stream, hm] at h; simp at h
    | some model =>
      cases hi : (req.get? "input").bind Json.asArr? with
      | none =>
        rw [map_responses_to_chat_request_with_stream, hm, hi] at h; simp at h
      | some items =>
        rw [map_responses_to_chat_request_with_stream, hm, hi] at h
        dsimp only at h
        rw [Except.ok.injEq] at h
        subst h
        split
        · rename_i ts heq
          rw [chatRequestLit_get_tools, Option.some_bind] at heq
          dsimp only [Json.asArr?] at heq
          rw [Option.some.injEq] at heq
          by_cases he : ts.isEmpty = true
          · rw [if_pos he]
            constructor
            · rw [get_remove_other _ _ _ (by decide), get_remove_self,
                get_remove_self]
            · intro ts2 hts2
              rw [get_remove_other _ _ _ (by decide), get_remove_self] at hts2
              simp at hts2
          · rw [if_neg he]
            constructor
            · rw [chatRequestLit_get_tools, chatRequestLit_get_tool_choice]
              simp
            · intro ts2 hts2
              rw [chatRequestLit_get_tools] at hts2
              simp only [Option.some.injEq, Json.arr.injEq] at hts2
              rw [heq] at hts2
              subst hts2
              intro hnil
              rw [hnil] at he
              simp at he
        · rename_i heq
          rw [chatRequestLit_get_tools, Option.some_bind] at heq
          dsimp only [Json.asArr?] at heq
          simp at heq
  · cases hm : (req.get? "model").bind Json.asStr? with
    | none => rw [map_chat_to_responses_request, hm] at h; simp at h
    | some model =>
      cases hms : (req.get? "messages").bind Json.asArr? with
      | none => rw [map_chat_to_responses_request, hm, hms] at h; simp at h
      | some messages =>
        rw [map_chat_to_responses_request, hm, hms] at h
        dsimp only at h
        rw [Except.ok.injEq] at h
        subst h
        split
        · rename_i ts heq
          rw [responsesOutLit_get_tools, Option.some_bind] at heq
          dsimp only [Json.asArr?] at heq
          rw [Option.some.injEq] at heq
          by_cases he : ts.isEmpty = true
          · rw [if_pos he]
            constructor
            · rw [get_remove_other _ _ _ (by decide), get_remove_self,
                get_remove_self]
            · intro ts2 hts2
              rw [get_remove_other _ _ _ (by decide), get_remove_self] at hts2
              simp at hts2
          · rw [if_neg he]
            constructor
            · rw [responsesOutLit_get_tools, responsesOutLit_get_tool_choice]
              simp
            · intro ts2 hts2
              rw [responsesOutLit_get_tools] at hts2
              simp only [Option.some.injEq, Json.arr.injEq] at hts2
              rw [heq] at hts2
              subst hts2
              intro hnil
              rw [hnil] at he
              simp at he
        · rename_i heq
          rw [responsesOutLit_get_tools, Option.some_bind] at heq
          dsimp only [Json.asArr?] at heq
          simp at heq

theorem C6_tools_tool_choice_witness :
    (((Json.obj [("model", .str "m"), ("input", .arr []),
        ("stream", .bool false),
        ("parallel_tool_calls", .bool true)]).get? "tools").isSome = true ↔
      ((Json.obj [("model", .str "m"), ("input", .arr []),
        ("stream", .bool false),
        ("parallel_tool_calls", .bool true)]).get? "tool_choice").isSome = true) ∧
    (∀ ts, (Json.obj [("model", .str "m"), ("input", .arr []),
        ("stream", .bool false),
        ("parallel_tool_calls", .bool true)]).get? "tools" = some (.arr ts) →
      ¬ ts = []) :=
  C6_tools_tool_choice (fun _ => "u")
    (Json.obj [("model", .str "m"), ("messages", .arr [])]) [] false
    (Json.obj [("model", .str "m"), ("input", .arr []),
      ("stream", .bool false), ("parallel_tool_calls", .bool true)])
    (Or.inr rfl)

/-- C7 counterexample: an already-wrapped function tool passes through
the Chat-bound normalization verbatim, so a wrapped tool whose inner
object lacks `description`/`parameters` appears in the output and
violates the claimed wrapped shape with non-null `parameters`. -/
theorem C7_counterexample :
    normalize_chat_tools
      [Json.obj [("type", .str "function"),
        ("function", Json.obj [("name", .str "f")])]] []
      = [Json.obj [("type", .str "function"),
        ("function", Json.obj [("name", .str "f")])]] ∧
    chatToolWrappedOk
      (Json.obj [("type", .str "function"),
        ("function", Json.obj [("name", .str "f")])]) = false := by
  constructor
  · rfl
  · rfl

/-- C7 (amended): every function tool in the Chat-bound output carries
a `function` key — tools already wrapped on input pass verbatim without
re-validation, and a bare function tool with a string `name` is wrapped
as `{type, function:{name, description, parameters}}` with all three
keys present (`parameters` being the incoming value, or a default
object schema when absent); no function tool in the Responses-bound
output carries a nested `function` object. -/
theorem C7_tool_envelope (drop : List String) (tools : List Json) :
    (∀ t ∈ normalize_chat_tools tools drop,
      (t.get? "type").bind Json.asStr? = some "function" →
      (t.get? "function").isSome = true) ∧
    (∀ t name,
      (t.get? "type").bind Json.asStr? = some "function" →
      t.get? "function" = none →
      drop.contains "function" = false →
      (t.get? "name").bind Json.asStr? = some name →
      normalizeChatTool drop t = some (.obj [("type", .str "function"),
        ("function", .obj [("name", .str name),
          ("description", .str (((t.get? "description").bind Json.asStr?).getD "")),
          ("parameters", (t.get? "parameters").getD defaultParameters)])])) ∧
    (∀ t ∈ normalize_responses_tools tools,
      (t.get? "type").bind Json.asStr? = some "function" →
      t.get? "function" = none) := by
  refine ⟨?_, ?_, ?_⟩
  · intro t ht htype
    obtain ⟨src, hsrc, heq⟩ := List.mem_filterMap.mp ht
    unfold normalizeChatTool at heq
    dsimp only at heq
    split at heq
    · simp at heq
    · split at heq
      · rename_i hne
        rw [Option.some.injEq] at heq
        subst heq
        exact absurd htype hne
      · split at heq
        · rename_i hfn
          rw [Option.some.injEq] at heq
          subst heq
          exact hfn
        · split at heq
          · simp at heq
          · rw [Option.some.injEq] at heq
            subst heq
            rfl
  · intro t name htype hfn hdrop hname
    unfold normalizeChatTool
    rw [htype]
    dsimp only [Option.any]
    rw [hdrop, hname, hfn]
    simp
  · intro t ht htype
    obtain ⟨src, hsrc, heq⟩ := List.mem_filterMap.mp ht
    unfold normalizeResponsesTool at heq
    split at heq
    · rename_i hne
      rw [Option.some.injEq] at heq
      subst heq
      exact absurd htype hne
    · split at heq
      · rename_i hnofn
        rw [Option.some.injEq] at heq
        subst heq
        exact hnofn
      · split at heq
        · simp at heq
        · rw [Option.some.injEq] at heq
          subst heq
          rfl

theorem C7_tool_envelope_witness :
    normalizeChatTool []
      (Json.obj [("type", .str "function"), ("name", .str "f")])
      = some (.obj [("type", .str "function"),
        ("function", .obj [("name", .str "f"), ("description", .str ""),
          ("parameters", defaultParameters)])]) ∧
    (Json.obj [("type", .str "function")]).get? "function" = none := by
  constructor
  · have h := (C7_tool_envelope [] []).2.1
      (Json.obj [("type", .str "function"), ("name", .str "f")]) "f"
      rfl rfl rfl rfl
    simpa using h
  · exact (C7_tool_envelope [] [Json.obj [("type", .str "function")]]).2.2
      (Json.obj [("type", .str "function")]) (by simp [normalize_responses_tools,
        normalizeResponsesTool, Json.get?, jlookup]) rfl

theorem splitCompleteLines_cons (c : Char) (cs : List Char) :
    splitCompleteLines (c :: cs) =
      if c = '\n' then
        ([] :: (splitCompleteLines cs).1, (splitCompleteLines cs).2)
      else
        match (splitCompleteLines cs).1 with
        | [] => ([], c :: (splitCompleteLines cs).2)
        | l :: ls => ((c :: l) :: ls, (splitCompleteLines cs).2) := rfl

theorem splitCompleteLines_append (x y : List Char) :
    splitCompleteLines (x ++ y) =
      ((splitCompleteLines x).1
          ++ (splitCompleteLines ((splitCompleteLines x).2 ++ y)).1,
        (splitCompleteLines ((splitCompleteLines x).2 ++ y)).2) := by
  induction x with
  | nil => simp [splitCompleteLines]
  | cons c cs ih =>
    by_cases hc : c = '\n'
    · simp [splitCompleteLines_cons, hc, ih, List.append_eq]
    · cases hA : (splitCompleteLines cs).1 with
      | nil =>
        cases hB : (splitCompleteLines ((splitCompleteLines cs).2 ++ y)).1 with
        | nil => simp [splitCompleteLines_cons, hc, ih, hA, hB, List.append_eq]
        | cons l ls => simp [splitCompleteLines_cons, hc, ih, hA, hB, List.append_eq]
      | cons a as => simp [splitCompleteLines_cons, hc, ih, hA, List.append_eq]

theorem splitCompleteLines_rest_no_newline (x : List Char) :
    '\n' ∉ (splitCompleteLines x).2 := by
  induction x with
  | nil => simp [splitCompleteLines]
  | cons c cs ih =>
    by_cases hc : c = '\n'
    · simpa [splitCompleteLines_cons, hc] using ih
    · cases hA : (splitCompleteLines cs).1 with
      | nil =>
        simp only [splitCompleteLines_cons, if_neg hc, hA, List.mem_cons, not_or]
        exact ⟨fun h => hc h.symm, ih⟩
      | cons a as =>
        simpa [splitCompleteLines_cons, hc, hA] using ih

theorem splitCompleteLines_of_no_newline (x : List Char) (h : '\n' ∉ x) :
    splitCompleteLines x = ([], x) := by
  induction x with
  | nil => rfl
  | cons c cs ih =>
    have hc : ¬ c = '\n' := fun hh => h (by simp [hh])
    have hcs : '\n' ∉ cs := fun hh => h (List.mem_cons_of_mem _ hh)
    simp [splitCompleteLines_cons, hc, ih hcs]

theorem sseHandleLines_append (pending : List (List Char))
    (l1 l2 : List (List Char)) :
    sseHandleLines pending (l1 ++ l2) =
      ((sseHandleLines pending l1).1
          ++ (sseHandleLines (sseHandleLines pending l1).2 l2).1,
        (sseHandleLines (sseHandleLines pending l1).2 l2).2) := by
  induction l1 generalizing pending with
  | nil => simp [sseHandleLines]
  | cons l ls ih =>
    simp only [List.cons_append, sseHandleLines, List.append_eq]
    rw [ih]
    simp

theorem SseParser.feed_append (p : SseParser) (a b : List Char) :
    p.feed (a ++ b)
      = ((p.feed a).1 ++ ((p.feed a).2.feed b).1, ((p.feed a).2.feed b).2) := by
  show (let split := splitCompleteLines (p.buffer ++ (a ++ b))
    let handled := sseHandleLines p.current_data_lines split.1
    ((handled.1, ⟨split.2, handled.2⟩) : List (List Char) × SseParser)) = _
  rw [← List.append_assoc, splitCompleteLines_append (p.buffer ++ a) b]
  show (let handled := (sseHandleLines p.current_data_lines
      ((splitCompleteLines (p.buffer ++ a)).1
        ++ (splitCompleteLines ((splitCompleteLines (p.buffer ++ a)).2 ++ b)).1));
    ((handled.1, ⟨(splitCompleteLines ((splitCompleteLines (p.buffer ++ a)).2 ++ b)).2,
      handled.2⟩) : List (List Char) × SseParser)) = _
  rw [sseHandleLines_append]
  rfl

theorem feed_buffer_no_newline (p : SseParser) (c : List Char) :
    '\n' ∉ ((p.feed c).2).buffer := by
  exact splitCompleteLines_rest_no_newline _

theorem sseFeedAll_eq_feed_join (cs : List (List Char)) (p : SseParser)
    (h : '\n' ∉ p.buffer) : sseFeedAll p cs = p.feed cs.flatten := by
  induction cs generalizing p with
  | nil =>
    show ([], p) = p.feed []
    show _ = (let split := splitCompleteLines (p.buffer ++ [])
      let handled := sseHandleLines p.current_data_lines split.1
      ((handled.1, ⟨split.2, handled.2⟩) : List (List Char) × SseParser))
    rw [List.append_nil, splitCompleteLines_of_no_newline p.buffer h]
    rfl
  | cons c cs ih =>
    rw [List.flatten_cons, SseParser.feed_append]
    show ((p.feed c).1 ++ (sseFeedAll (p.feed c).2 cs).1,
        (sseFeedAll (p.feed c).2 cs).2) = _
    rw [ih ((p.feed c).2) (feed_buffer_no_newline p c)]

/-- C3: the SSE line parser is concatenative — feeding any list of
chunks in order to a fresh parser and then calling `finish()` yields
the same payload sequence (trailing payload included) as feeding their
concatenation once. -/
theorem C3_sse_concatenative (chunks : List (List Char)) :
    sseRun chunks = sseRun [chunks.flatten] := by
  unfold sseRun
  rw [sseFeedAll_eq_feed_join chunks sseParserInit (by simp [sseParserInit])]
  show _ = ((sseParserInit.feed chunks.flatten).1
      ++ (sseFeedAll (sseParserInit.feed chunks.flatten).2 []).1,
    (sseFeedAll (sseParserInit.feed chunks.flatten).2 []).2).1 ++ _
  simp [sseFeedAll]

theorem deltaTexts_append (l1 l2 : List RespEvent) :
    deltaTexts (l1 ++ l2) = deltaTexts l1 ++ deltaTexts l2 := by
  induction l1 with
  | nil => rfl
  | cons e rest ih => cases e <;> simp [deltaTexts, ih]

theorem msgDoneTexts_append (l1 l2 : List RespEvent) :
    msgDoneTexts (l1 ++ l2) = msgDoneTexts l1 ++ msgDoneTexts l2 := by
  induction l1 with
  | nil => rfl
  | cons e rest ih => cases e <;> simp [msgDoneTexts, ih]

theorem fnDoneItems_append (l1 l2 : List RespEvent) :
    fnDoneItems (l1 ++ l2) = fnDoneItems l1 ++ fnDoneItems l2 := by
  induction l1 with
  | nil => rfl
  | cons e rest ih => cases e <;> simp [fnDoneItems, ih]

theorem midOk_nil (a : Bool) : MidOk a a [] := by
  cases a
  · exact Or.inl ⟨rfl, rfl⟩
  · exact ⟨rfl, by simp⟩

theorem midOk_append {a b c : Bool} {l1 l2 : List RespEvent}
    (h1 : MidOk a b l1) (h2 : MidOk b c l2) : MidOk a c (l1 ++ l2) := by
  cases a
  · cases b
    · rcases h1 with ⟨_, h1⟩ | ⟨hb, _⟩
      · subst h1
        simpa using h2
      · cases hb
    · rcases h1 with ⟨hb, _⟩ | ⟨_, ds, hds, hall⟩
      · cases hb
      · obtain ⟨hc, hall2⟩ := h2
        refine Or.inr ⟨hc, ds ++ l2, ?_, ?_⟩
        · simp [hds]
        · intro e he
          rcases List.mem_append.mp he with he | he
          · exact hall e he
          · exact hall2 e he
  · cases b
    · exact absurd h1.1 (by simp)
    · obtain ⟨hc, hall2⟩ := h2
      refine ⟨hc, ?_⟩
      intro e he
      rcases List.mem_append.mp he with he | he
      · exact h1.2 e he
      · exact hall2 e he

theorem processChoice_shape (acc : StreamAccumulator) (added : Bool)
    (choice : ChatChoice) :
    MidOk added (processChoice acc added choice).2.2
      (processChoice acc added choice).1 := by
  cases hd : choice.delta with
  | none =>
    simp only [processChoice, hd]
    exact midOk_nil added
  | some delta =>
    cases hc : delta.content with
    | none =>
      simp only [processChoice, hd, hc]
      exact midOk_nil added
    | some content =>
      by_cases hcon : content = []
      · simp only [processChoice, hd, hc, if_neg (not_not_intro hcon)]
        exact midOk_nil added
      · simp only [processChoice, hd, hc, if_pos hcon]
        cases added
        · exact Or.inr ⟨rfl, [RespEvent.output_text_delta content], rfl,
            by intro e he; simp at he; subst he
               simpa [RespEvent.isNonemptyDelta] using hcon⟩
        · exact ⟨rfl,
            by intro e he; simp at he; subst he
               simpa [RespEvent.isNonemptyDelta] using hcon⟩

theorem processChoices_shape (cs : List ChatChoice) :
    ∀ (acc : StreamAccumulator) (added : Bool),
    MidOk added (processChoices acc added cs).2.2
      (processChoices acc added cs).1 := by
  induction cs with
  | nil => intro acc added; exact midOk_nil added
  | cons c cs ih =>
    intro acc added
    simp only [processChoices]
    exact midOk_append (processChoice_shape acc added c) (ih _ _)

theorem processPayload_shape (decode : List Char → Option ChatChunk)
    (acc : StreamAccumulator) (added : Bool) (data : List Char) :
    MidOk added (processPayload decode acc added data).2.2
      (processPayload decode acc added data).1 := by
  unfold processPayload
  by_cases hd : data = "[DONE]".toList
  · rw [if_pos hd]
    exact midOk_nil added
  · rw [if_neg hd]
    cases hdec : decode data with
    | none => exact midOk_nil added
    | some chunk => exact processChoices_shape _ _ _

theorem processPayloads_shape (decode : List Char → Option ChatChunk)
    (ds : List (List Char)) :
    ∀ (acc : StreamAccumulator) (added : Bool),
    MidOk added (processPayloads decode acc added ds).2.2
      (processPayloads decode acc added ds).1 := by
  induction ds with
  | nil => intro acc added; exact midOk_nil added
  | cons d ds ih =>
    intro acc added
    simp only [processPayloads]
    exact midOk_append (processPayload_shape decode acc added d) (ih _ _)

theorem processChoice_text (acc : StreamAccumulator) (added : Bool)
    (choice : ChatChoice) :
    (processChoice acc added choice).2.1.assistant_text
      = acc.assistant_text
        ++ (deltaTexts (processChoice acc added choice).1).flatten := by
  cases hd : choice.delta with
  | none => simp [processChoice, hd, deltaTexts]
  | some delta =>
    cases hc : delta.content with
    | none =>
      cases ht : delta.tool_calls <;> simp [processChoice, hd, hc, ht, deltaTexts]
    | some content =>
      by_cases hcon : content = []
      · cases ht : delta.tool_calls <;>
          simp [processChoice, hd, hc, ht, if_neg (not_not_intro hcon), deltaTexts]
      · cases added <;> cases ht : delta.tool_calls <;>
          simp [processChoice, hd, hc, ht, if_pos hcon, deltaTexts]

theorem processChoices_text (cs : List ChatChoice) :
    ∀ (acc : StreamAccumulator) (added : Bool),
    (processChoices acc added cs).2.1.assistant_text
      = acc.assistant_text
        ++ (deltaTexts (processChoices acc added cs).1).flatten := by
  induction cs with
  | nil => intro acc added; simp [processChoices, deltaTexts]
  | cons c cs ih =>
    intro acc added
    simp only [processChoices]
    rw [ih, processChoice_text, deltaTexts_append]
    simp

theorem processPayload_text (decode : List Char → Option ChatChunk)
    (acc : StreamAccumulator) (added : Bool) (data : List Char) :
    (processPayload decode acc added data).2.1.assistant_text
      = acc.assistant_text
        ++ (deltaTexts (processPayload decode acc added data).1).flatten := by
  by_cases hd : data = "[DONE]".toList
  · simp only [processPayload, if_pos hd]
    simp [deltaTexts]
  · cases hdec : decode data with
    | none =>
      simp only [processPayload, if_neg hd, hdec]
      simp [deltaTexts]
    | some chunk =>
      cases hu : chunk.usage with
      | none =>
        simp only [processPayload, if_neg hd, hdec, hu]
        exact processChoices_text _ _ _
      | some u =>
        simp only [processPayload, if_neg hd, hdec, hu]
        rw [processChoices_text]

theorem processPayloads_text (decode : List Char → Option ChatChunk)
    (ds : List (List Char)) :
    ∀ (acc : StreamAccumulator) (added : Bool),
    (processPayloads decode acc added ds).2.1.assistant_text
      = acc.assistant_text
        ++ (deltaTexts (processPayloads decode acc added ds).1).flatten := by
  induction ds with
  | nil => intro acc added; simp [processPayloads, deltaTexts]
  | cons d ds ih =>
    intro acc added
    simp only [processPayloads]
    rw [ih, processPayload_text, deltaTexts_append]
    simp

theorem translateLoop_decomp (decode : List Char → Option ChatChunk)
    (uuid : Nat → List Char) (respId : List Char)
    (chunks : List (Except (List Char) (List Char))) :
    ∀ (p : SseParser) (acc : StreamAccumulator) (added : Bool),
    ∃ (mid : List RespEvent) (added1 : Bool),
      translateLoop decode uuid respId p acc added chunks =
        mid ++ (match firstReadError chunks with
          | none => finishEvents uuid respId
              (translateRunState decode p acc added (okChunkTexts chunks)).2.1
          | some e =>
              [RespEvent.failed respId "upstream_stream_error".toList e]) ∧
      MidOk added added1 mid ∧
      (translateRunState decode p acc added (okChunkTexts chunks)).2.1.assistant_text
        = acc.assistant_text ++ (deltaTexts mid).flatten := by
  induction chunks with
  | nil =>
    intro p acc added
    exact ⟨[], added, by simp [translateLoop, firstReadError, okChunkTexts,
        translateRunState],
      midOk_nil added,
      by simp [okChunkTexts, translateRunState, deltaTexts]⟩
  | cons ch rest ih =>
    intro p acc added
    cases ch with
    | error e =>
      exact ⟨[], added, by simp [translateLoop, firstReadError, okChunkTexts,
          translateRunState],
        midOk_nil added,
        by simp [okChunkTexts, translateRunState, deltaTexts]⟩
    | ok c =>
      obtain ⟨mid, added1, heq, hmid, htext⟩ :=
        ih (p.feed c).2 (processPayloads decode acc added (p.feed c).1).2.1
          (processPayloads decode acc added (p.feed c).1).2.2
      refine ⟨(processPayloads decode acc added (p.feed c).1).1 ++ mid, added1,
        ?_, ?_, ?_⟩
      · simp only [translateLoop]
        rw [heq]
        simp [firstReadError, okChunkTexts, translateRunState, List.append_assoc]
      · exact midOk_append (processPayloads_shape decode _ acc added) hmid
      · rw [show okChunkTexts (Except.ok c :: rest) = c :: okChunkTexts rest
          from rfl]
        rw [show translateRunState decode p acc added (c :: okChunkTexts rest)
            = translateRunState decode (p.feed c).2
                (processPayloads decode acc added (p.feed c).1).2.1
                (processPayloads decode acc added (p.feed c).1).2.2
                (okChunkTexts rest) from rfl]
        rw [htext, processPayloads_text, deltaTexts_append]
        simp

theorem finishEvents_mem (uuid : Nat → List Char) (respId : List Char)
    (acc : StreamAccumulator) (e : RespEvent)
    (he : e ∈ finishEvents uuid respId acc) :
    (∃ t, e = RespEvent.output_item_done_message t) ∨
    (∃ n a c, e = RespEvent.output_item_done_function_call n a c) ∨
    e = RespEvent.completed respId acc.usage := by
  unfold finishEvents at he
  rcases List.mem_append.mp he with he1 | he2
  · rcases List.mem_append.mp he1 with he3 | he4
    · left
      split at he3
      · simp at he3
        exact ⟨_, he3⟩
      · simp at he3
    · right; left
      obtain ⟨p, _, hp⟩ := List.mem_map.mp he4
      exact ⟨_, _, _, hp.symm⟩
  · right; right
    simpa using he2

theorem midOk_mem {a b : Bool} {l : List RespEvent} (h : MidOk a b l) :
    ∀ e ∈ l, e = RespEvent.output_item_added ∨ e.isNonemptyDelta = true := by
  intro e he
  cases a
  · rcases h with ⟨_, hnil⟩ | ⟨_, ds, hds, hall⟩
    · subst hnil
      simp at he
    · subst hds
      rcases List.mem_cons.mp he with he | he
      · exact Or.inl he
      · exact Or.inr (hall e he)
  · exact Or.inr (h.2 e he)

theorem isNonemptyDelta_isDelta {e : RespEvent} (h : e.isNonemptyDelta = true) :
    e.isDelta = true := by
  cases e <;> simp_all [RespEvent.isNonemptyDelta, RespEvent.isDelta]

theorem midOk_classifiers {a b : Bool} {l : List RespEvent} (h : MidOk a b l) :
    ∀ e ∈ l, e.isCreated = false ∧ e.isTerminal = false := by
  intro e he
  rcases midOk_mem h e he with he2 | he2
  · subst he2
    exact ⟨rfl, rfl⟩
  · cases e <;> simp_all [RespEvent.isNonemptyDelta, RespEvent.isCreated,
      RespEvent.isTerminal]

theorem finishEvents_classifiers (uuid : Nat → List Char) (respId : List Char)
    (acc : StreamAccumulator) :
    ∀ e ∈ finishEvents uuid respId acc,
      e.isCreated = false ∧ e.isAdded = false ∧ e.isDelta = false := by
  intro e he
  rcases finishEvents_mem uuid respId acc e he with ⟨t, ht⟩ | ⟨n, a2, c, ht⟩ | ht <;>
    subst ht <;>
    exact ⟨rfl, rfl, rfl⟩

theorem finishEvents_concat (uuid : Nat → List Char) (respId : List Char)
    (acc : StreamAccumulator) :
    finishEvents uuid respId acc
      = ((if ¬ acc.assistant_text = [] then
            [RespEvent.output_item_done_message acc.assistant_text]
          else [])
          ++ acc.tool_calls.map (fun p =>
            RespEvent.output_item_done_function_call
              (p.2.name.getD "unknown_function".toList)
              p.2.arguments
              (p.2.id.getD ("call_".toList ++ uuid p.1 ++ "_".toList
                ++ (toString p.1).toList))))
        ++ [RespEvent.completed respId acc.usage] := by
  unfold finishEvents
  rw [List.append_assoc]

theorem finishEvents_countP_terminal (uuid : Nat → List Char)
    (respId : List Char) (acc : StreamAccumulator) :
    (finishEvents uuid respId acc).countP RespEvent.isTerminal = 1 := by
  rw [finishEvents_concat, List.countP_append]
  have h0 : ((if ¬ acc.assistant_text = [] then
      [RespEvent.output_item_done_message acc.assistant_text] else [])
      ++ acc.tool_calls.map (fun p =>
        RespEvent.output_item_done_function_call
          (p.2.name.getD "unknown_function".toList)
          p.2.arguments
          (p.2.id.getD ("call_".toList ++ uuid p.1 ++ "_".toList
            ++ (toString p.1).toList)))).countP RespEvent.isTerminal = 0 := by
    rw [List.countP_eq_zero]
    intro e he
    rcases List.mem_append.mp he with he1 | he2
    · split at he1
      · simp at he1
        subst he1
        simp [RespEvent.isTerminal]
      · simp at he1
    · obtain ⟨p, _, hp⟩ := List.mem_map.mp he2
      rw [← hp]
      simp [RespEvent.isTerminal]
  rw [h0]
  rfl

theorem envelope_core (respId : List Char) (mid tail : List RespEvent)
    (added1 : Bool) (hmid : MidOk false added1 mid)
    (htail : ∀ e ∈ tail,
      e.isCreated = false ∧ e.isAdded = false ∧ e.isDelta = false)
    (hterm : tail.countP RespEvent.isTerminal = 1) :
    (RespEvent.created respId :: (mid ++ tail)).countP RespEvent.isCreated = 1 ∧
    (RespEvent.created respId :: (mid ++ tail)).countP RespEvent.isTerminal = 1 ∧
    (∀ i e, (RespEvent.created respId :: (mid ++ tail))[i]? = some e →
      e.isDelta = true →
      ((RespEvent.created respId :: (mid ++ tail)).take i).countP
        RespEvent.isAdded = 1) := by
  have hmidCls := midOk_classifiers hmid
  refine ⟨?_, ?_, ?_⟩
  · rw [List.countP_cons_of_pos _ _ (by rfl), List.countP_append]
    have h1 : mid.countP RespEvent.isCreated = 0 :=
      List.countP_eq_zero.mpr (fun e he => by simp [(hmidCls e he).1])
    have h2 : tail.countP RespEvent.isCreated = 0 :=
      List.countP_eq_zero.mpr (fun e he => by simp [(htail e he).1])
    rw [h1, h2]
  · rw [List.countP_cons_of_neg _ _ (by simp [RespEvent.isTerminal]),
      List.countP_append]
    have h1 : mid.countP RespEvent.isTerminal = 0 :=
      List.countP_eq_zero.mpr (fun e he => by simp [(hmidCls e he).2])
    rw [h1, hterm]
  · intro i e hi hdelta
    rcases hmid with ⟨_, hnil⟩ | ⟨_, ds, hds, hall⟩
    · subst hnil
      have hmem := List.getElem?_mem hi
      rcases List.mem_cons.mp hmem with h | h
      · subst h
        simp [RespEvent.isDelta] at hdelta
      · rcases List.mem_append.mp h with h | h
        · simp at h
        · simp [(htail e h).2.2] at hdelta
    · subst hds
      cases i with
      | zero =>
        rw [List.getElem?_cons_zero, Option.some.injEq] at hi
        subst hi
        simp [RespEvent.isDelta] at hdelta
      | succ j =>
        rw [List.getElem?_cons_succ] at hi
        cases j with
        | zero =>
          simp only [List.cons_append, List.getElem?_cons_zero,
            Option.some.injEq] at hi
          subst hi
          simp [RespEvent.isDelta] at hdelta
        | succ k =>
          simp only [List.cons_append, List.getElem?_cons_succ] at hi
          simp only [List.cons_append, List.take_succ_cons]
          rw [List.countP_cons_of_neg _ _ (by simp [RespEvent.isAdded]),
            List.countP_cons_of_pos _ _ (by rfl)]
          have h0 : ((ds ++ tail).take k).countP RespEvent.isAdded = 0 := by
            rw [List.countP_eq_zero]
            intro e2 he2
            have he3 := List.take_subset k (ds ++ tail) he2
            rcases List.mem_append.mp he3 with h | h
            · have h4 := hall e2 h
              cases e2 <;> simp_all [RespEvent.isNonemptyDelta, RespEvent.isAdded]
            · simp [(htail e2 h).2.1]
          rw [h0]

/-- C1: every translated stream starts with exactly one
`response.created`, ends with exactly one terminal event —
`response.completed` when every chunk read succeeded,
`response.failed` at the first read error, after which nothing more is
emitted — and any `response.output_text.delta` is preceded by exactly
one `response.output_item.added`. -/
theorem C1_stream_envelope (decode : List Char → Option ChatChunk)
    (uuid : Nat → List Char) (respId : List Char)
    (chunks : List (Except (List Char) (List Char))) :
    (translate_chat_stream decode uuid respId chunks).head?
        = some (RespEvent.created respId) ∧
    (translate_chat_stream decode uuid respId chunks).countP
        RespEvent.isCreated = 1 ∧
    (translate_chat_stream decode uuid respId chunks).countP
        RespEvent.isTerminal = 1 ∧
    (firstReadError chunks = none →
      (translate_chat_stream decode uuid respId chunks).getLast?
        = some (RespEvent.completed respId
            (finalAccumulator decode chunks).usage)) ∧
    (∀ e, firstReadError chunks = some e →
      (translate_chat_stream decode uuid respId chunks).getLast?
        = some (RespEvent.failed respId "upstream_stream_error".toList e)) ∧
    (∀ i e, (translate_chat_stream decode uuid respId chunks)[i]? = some e →
      e.isDelta = true →
      ((translate_chat_stream decode uuid respId chunks).take i).countP
        RespEvent.isAdded = 1) := by
  obtain ⟨mid, added1, heq, hmid, htext⟩ :=
    translateLoop_decomp decode uuid respId chunks sseParserInit saInit false
  cases hferr : firstReadError chunks with
  | none =>
    rw [hferr] at heq
    have hevs : translate_chat_stream decode uuid respId chunks
        = RespEvent.created respId
          :: (mid ++ finishEvents uuid respId (finalAccumulator decode chunks)) := by
      rw [translate_chat_stream, heq]
      rfl
    have hcore := envelope_core respId mid
      (finishEvents uuid respId (finalAccumulator decode chunks)) added1 hmid
      (finishEvents_classifiers uuid respId (finalAccumulator decode chunks))
      (finishEvents_countP_terminal uuid respId (finalAccumulator decode chunks))
    have hlast : (translate_chat_stream decode uuid respId chunks).getLast?
        = some (RespEvent.completed respId (finalAccumulator decode chunks).usage) := by
      rw [hevs, finishEvents_concat]
      rw [show (RespEvent.created respId
          :: (mid ++ (((if ¬ (finalAccumulator decode chunks).assistant_text = [] then
              [RespEvent.output_item_done_message
                (finalAccumulator decode chunks).assistant_text] else [])
            ++ (finalAccumulator decode chunks).tool_calls.map (fun p =>
              RespEvent.output_item_done_function_call
                (p.2.name.getD "unknown_function".toList)
                p.2.arguments
                (p.2.id.getD ("call_".toList ++ uuid p.1 ++ "_".toList
                  ++ (toString p.1).toList))))
            ++ [RespEvent.completed respId (finalAccumulator decode chunks).usage])))
          = (RespEvent.created respId
            :: (mid ++ ((if ¬ (finalAccumulator decode chunks).assistant_text = [] then
              [RespEvent.output_item_done_message
                (finalAccumulator decode chunks).assistant_text] else [])
            ++ (finalAccumulator decode chunks).tool_calls.map (fun p =>
              RespEvent.output_item_done_function_call
                (p.2.name.getD "unknown_function".toList)
                p.2.arguments
                (p.2.id.getD ("call_".toList ++ uuid p.1 ++ "_".toList
                  ++ (toString p.1).toList))))))
            ++ [RespEvent.completed respId (finalAccumulator decode chunks).usage]
        from by simp]
      exact List.getLast?_concat _
    refine ⟨?_, ?_, ?_, ?_, ?_, ?_⟩
    · rw [hevs]; rfl
    · rw [hevs]; exact hcore.1
    · rw [hevs]; exact hcore.2.1
    · intro _; exact hlast
    · intro e he; cases he
    · rw [hevs]; exact hcore.2.2
  | some e0 =>
    rw [hferr] at heq
    have hevs : translate_chat_stream decode uuid respId chunks
        = RespEvent.created respId
          :: (mid ++ [RespEvent.failed respId "upstream_stream_error".toList e0]) := by
      rw [translate_chat_stream, heq]
    have htail1 : ∀ e ∈ [RespEvent.failed respId "upstream_stream_error".toList e0],
        e.isCreated = false ∧ e.isAdded = false ∧ e.isDelta = false := by
      intro e he
      simp at he
      subst he
      exact ⟨rfl, rfl, rfl⟩
    have hcore := envelope_core respId mid
      [RespEvent.failed respId "upstream_stream_error".toList e0] added1 hmid
      htail1 rfl
    have hlast : (translate_chat_stream decode uuid respId chunks).getLast?
        = some (RespEvent.failed respId "upstream_stream_error".toList e0) := by
      rw [hevs]
      rw [show (RespEvent.created respId :: (mid
          ++ [RespEvent.failed respId "upstream_stream_error".toList e0]))
          = (RespEvent.created respId :: mid)
            ++ [RespEvent.failed respId "upstream_stream_error".toList e0]
        from by simp]
      exact List.getLast?_concat _
    refine ⟨?_, ?_, ?_, ?_, ?_, ?_⟩
    · rw [hevs]; rfl
    · rw [hevs]; exact hcore.1
    · rw [hevs]; exact hcore.2.1
    · intro h; cases h
    · intro e he
      rw [Option.some.injEq] at he
      subst he
      exact hlast
    · rw [hevs]; exact hcore.2.2

theorem C1_stream_envelope_witness :
    (translate_chat_stream (fun _ => some ⟨[⟨some ⟨some ['h'], none⟩⟩], none⟩)
        (fun _ => []) ['r'] [Except.ok ("data: x\n\n".toList)]).getLast?
      = some (RespEvent.completed ['r']
          (finalAccumulator (fun _ => some ⟨[⟨some ⟨some ['h'], none⟩⟩], none⟩)
            [Except.ok ("data: x\n\n".toList)]).usage) ∧
    (translate_chat_stream (fun _ => some ⟨[⟨some ⟨some ['h'], none⟩⟩], none⟩)
        (fun _ => []) ['r'] [Except.error ['e']]).getLast?
      = some (RespEvent.failed ['r'] "upstream_stream_error".toList ['e']) ∧
    ((translate_chat_stream (fun _ => some ⟨[⟨some ⟨some ['h'], none⟩⟩], none⟩)
        (fun _ => []) ['r'] [Except.ok ("data: x\n\n".toList)]).take 2).countP
      RespEvent.isAdded = 1 := by
  refine ⟨?_, ?_, ?_⟩
  · exact (C1_stream_envelope (fun _ => some ⟨[⟨some ⟨some ['h'], none⟩⟩], none⟩)
      (fun _ => []) ['r'] [Except.ok ("data: x\n\n".toList)]).2.2.2.1 rfl
  · exact (C1_stream_envelope (fun _ => some ⟨[⟨some ⟨some ['h'], none⟩⟩], none⟩)
      (fun _ => []) ['r'] [Except.error ['e']]).2.2.2.2.1 ['e'] rfl
  · exact (C1_stream_envelope (fun _ => some ⟨[⟨some ⟨some ['h'], none⟩⟩], none⟩)
      (fun _ => []) ['r'] [Except.ok ("data: x\n\n".toList)]).2.2.2.2.2 2
      (RespEvent.output_text_delta ['h']) rfl rfl

theorem deltaTexts_eq_nil_of {l : List RespEvent}
    (h : ∀ e ∈ l, e.isDelta = false) : deltaTexts l = [] := by
  induction l with
  | nil => rfl
  | cons e rest ih =>
    have he := h e (List.mem_cons_self e rest)
    cases e <;> simp_all [deltaTexts, RespEvent.isDelta]
  
theorem msgDoneTexts_eq_nil_of {l : List RespEvent}
    (h : ∀ e ∈ l, ∀ t, ¬ e = RespEvent.output_item_done_message t) :
    msgDoneTexts l = [] := by
  induction l with
  | nil => rfl
  | cons e rest ih =>
    have hrest := ih (fun e2 he2 => h e2 (List.mem_cons_of_mem _ he2))
    cases e with
    | output_item_done_message t =>
      exact absurd rfl (h _ (List.mem_cons_self _ _) t)
    | created i => simpa [msgDoneTexts] using hrest
    | output_item_added => simpa [msgDoneTexts] using hrest
    | output_text_delta d => simpa [msgDoneTexts] using hrest
    | output_item_done_function_call n a c => simpa [msgDoneTexts] using hrest
    | completed i u => simpa [msgDoneTexts] using hrest
    | failed i c m => simpa [msgDoneTexts] using hrest

theorem deltaTexts_finishEvents (uuid : Nat → List Char) (respId : List Char)
    (acc : StreamAccumulator) :
    deltaTexts (finishEvents uuid respId acc) = [] :=
  deltaTexts_eq_nil_of (fun e he =>
    (finishEvents_classifiers uuid respId acc e he).2.2)

theorem msgDoneTexts_finishEvents (uuid : Nat → List Char) (respId : List Char)
    (acc : StreamAccumulator) :
    msgDoneTexts (finishEvents uuid respId acc)
      = if acc.assistant_text = [] then [] else [acc.assistant_text] := by
  rw [finishEvents_concat, msgDoneTexts_append, msgDoneTexts_append]
  have h2 : msgDoneTexts (acc.tool_calls.map (fun p =>
      RespEvent.output_item_done_function_call
        (p.2.name.getD "unknown_function".toList)
        p.2.arguments
        (p.2.id.getD ("call_".toList ++ uuid p.1 ++ "_".toList
          ++ (toString p.1).toList)))) = [] := by
    apply msgDoneTexts_eq_nil_of
    intro e he t
    obtain ⟨p, _, hp⟩ := List.mem_map.mp he
    rw [← hp]
    simp
  rw [h2]
  by_cases ht : acc.assistant_text = []
  · rw [if_neg (not_not_intro ht), if_pos ht]
    rfl
  · rw [if_pos ht, if_neg ht]
    rfl

theorem deltaTexts_mem {l : List RespEvent} {t : List Char}
    (ht : t ∈ deltaTexts l) : RespEvent.output_text_delta t ∈ l := by
  induction l with
  | nil => simp [deltaTexts] at ht
  | cons e rest ih =>
    cases e with
    | output_text_delta d =>
      rw [deltaTexts] at ht
      rcases List.mem_cons.mp ht with h | h
      · subst h
        exact List.mem_cons_self _ _
      · exact List.mem_cons_of_mem _ (ih h)
    | created i => exact List.mem_cons_of_mem _ (ih ht)
    | output_item_added => exact List.mem_cons_of_mem _ (ih ht)
    | output_item_done_message m => exact List.mem_cons_of_mem _ (ih ht)
    | output_item_done_function_call n a c => exact List.mem_cons_of_mem _ (ih ht)
    | completed i u => exact List.mem_cons_of_mem _ (ih ht)
    | failed i c m => exact List.mem_cons_of_mem _ (ih ht)

theorem flatten_eq_nil_of_nonempty {L : List (List Char)}
    (h : ∀ t ∈ L, ¬ t = []) (hf : L.flatten = []) : L = [] := by
  cases L with
  | nil => rfl
  | cons t rest =>
    rw [List.flatten_cons] at hf
    rcases List.append_eq_nil.mp hf with ⟨h1, _⟩
    exact absurd h1 (h t (List.mem_cons_self _ _))

theorem deltaTexts_cons_created (i : List Char) (rest : List RespEvent) :
    deltaTexts (RespEvent.created i :: rest) = deltaTexts rest := rfl

theorem msgDoneTexts_cons_created (i : List Char) (rest : List RespEvent) :
    msgDoneTexts (RespEvent.created i :: rest) = msgDoneTexts rest := rfl

/-- C2: for a stream with no mid-stream read error, the concatenation
of all `response.output_text.delta` payloads equals the text of the
message-shaped `response.output_item.done` event, and that message item
is emitted iff at least one delta was emitted. -/
theorem C2_text_roundtrip (decode : List Char → Option ChatChunk)
    (uuid : Nat → List Char) (respId : List Char)
    (chunks : List (Except (List Char) (List Char)))
    (h : firstReadError chunks = none) :
    msgDoneTexts (translate_chat_stream decode uuid respId chunks)
      = (if (deltaTexts (translate_chat_stream decode uuid respId chunks)).flatten = []
          then []
          else [(deltaTexts (translate_chat_stream decode uuid respId chunks)).flatten]) ∧
    (msgDoneTexts (translate_chat_stream decode uuid respId chunks) = []
      ↔ deltaTexts (translate_chat_stream decode uuid respId chunks) = []) := by
  obtain ⟨mid, added1, heq, hmid, htext⟩ :=
    translateLoop_decomp decode uuid respId chunks sseParserInit saInit false
  rw [h] at heq
  have hevs : translate_chat_stream decode uuid respId chunks
      = RespEvent.created respId
        :: (mid ++ finishEvents uuid respId (finalAccumulator decode chunks)) := by
    rw [translate_chat_stream, heq]
    rfl
  have htext2 : (finalAccumulator decode chunks).assistant_text
      = (deltaTexts mid).flatten := by
    have : (finalAccumulator decode chunks).assistant_text
        = saInit.assistant_text ++ (deltaTexts mid).flatten := htext
    simpa [saInit] using this
  have hdelta : deltaTexts (translate_chat_stream decode uuid respId chunks)
      = deltaTexts mid := by
    rw [hevs, deltaTexts_cons_created, deltaTexts_append,
      deltaTexts_finishEvents, List.append_nil]
  have hmsg : msgDoneTexts (translate_chat_stream decode uuid respId chunks)
      = if (deltaTexts mid).flatten = [] then [] else [(deltaTexts mid).flatten] := by
    rw [hevs, msgDoneTexts_cons_created, msgDoneTexts_append,
      msgDoneTexts_finishEvents, htext2]
    have hmid0 : msgDoneTexts mid = [] := by
      apply msgDoneTexts_eq_nil_of
      intro e he t
      rcases midOk_mem hmid e he with he2 | he2
      · subst he2
        simp
      · intro hc
        subst hc
        simp [RespEvent.isNonemptyDelta] at he2
    rw [hmid0, List.nil_append]
  have hnonempty : ∀ t ∈ deltaTexts mid, ¬ t = [] := by
    intro t ht
    have hd := deltaTexts_mem ht
    rcases midOk_mem hmid _ hd with he2 | he2
    · cases he2
    · simpa [RespEvent.isNonemptyDelta] using he2
  constructor
  · rw [hmsg, hdelta]
  · rw [hmsg, hdelta]
    constructor
    · intro hm
      by_cases hf : (deltaTexts mid).flatten = []
      · exact flatten_eq_nil_of_nonempty hnonempty hf
      · rw [if_neg hf] at hm
        cases hm
    · intro hd2
      rw [hd2]
      simp

theorem C2_text_roundtrip_witness :
    msgDoneTexts (translate_chat_stream
        (fun _ => some ⟨[⟨some ⟨some ['h'], none⟩⟩], none⟩)
        (fun _ => []) ['r'] [Except.ok ("data: x\n\n".toList)])
      = (if (deltaTexts (translate_chat_stream
            (fun _ => some ⟨[⟨some ⟨some ['h'], none⟩⟩], none⟩)
            (fun _ => []) ['r'] [Except.ok ("data: x\n\n".toList)])).flatten = []
          then []
          else [(deltaTexts (translate_chat_stream
            (fun _ => some ⟨[⟨some ⟨some ['h'], none⟩⟩], none⟩)
            (fun _ => []) ['r'] [Except.ok ("data: x\n\n".toList)])).flatten]) ∧
    (msgDoneTexts (translate_chat_stream
        (fun _ => some ⟨[⟨some ⟨some ['h'], none⟩⟩], none⟩)
        (fun _ => []) ['r'] [Except.ok ("data: x\n\n".toList)]) = []
      ↔ deltaTexts (translate_chat_stream
        (fun _ => some ⟨[⟨some ⟨some ['h'], none⟩⟩], none⟩)
        (fun _ => []) ['r'] [Except.ok ("data: x\n\n".toList)]) = []) :=
  C2_text_roundtrip (fun _ => some ⟨[⟨some ⟨some ['h'], none⟩⟩], none⟩)
    (fun _ => []) ['r'] [Except.ok ("data: x\n\n".toList)] rfl

theorem tcLookup_eq_none_of_lt_all (m : TCMap) (k : Nat)
    (h : ∀ p ∈ m, k < p.1) : tcLookup m k = none := by
  induction m with
  | nil => rfl
  | cons p rest ih =>
    obtain ⟨k1, v⟩ := p
    have hk1 : k < k1 := h (k1, v) (List.mem_cons_self _ _)
    rw [show tcLookup ((k1, v) :: rest) k
        = if k1 = k then some v else tcLookup rest k from rfl]
    rw [if_neg (by omega)]
    exact ih (fun p hp => h p (List.mem_cons_of_mem _ hp))

theorem tcLookup_tcUpdate (m : TCMap) (k i : Nat)
    (f : ToolCallAccumulator → ToolCallAccumulator)
    (hs : (m.map Prod.fst).Pairwise (· < ·)) :
    tcLookup (tcUpdate m k f) i
      = if i = k then some (f ((tcLookup m k).getD tcDefault))
        else tcLookup m i := by
  induction m with
  | nil =>
    by_cases hik : i = k
    · subst hik
      simp [tcUpdate, tcLookup]
    · have hki : ¬ k = i := fun h => hik h.symm
      simp [tcUpdate, tcLookup, hik, hki]
  | cons p rest ih =>
    obtain ⟨k1, v⟩ := p
    rw [List.map_cons, List.pairwise_cons] at hs
    obtain ⟨hlt, hrest⟩ := hs
    rw [show tcUpdate ((k1, v) :: rest) k f
        = if k < k1 then (k, f tcDefault) :: (k1, v) :: rest
          else if k = k1 then (k1, f v) :: rest
          else (k1, v) :: tcUpdate rest k f from rfl]
    by_cases h1 : k < k1
    · rw [if_pos h1]
      have hnone : tcLookup ((k1, v) :: rest) k = none := by
        apply tcLookup_eq_none_of_lt_all
        intro p hp
        rcases List.mem_cons.mp hp with hp | hp
        · subst hp; exact h1
        · exact lt_trans h1 (hlt p.1 (List.mem_map_of_mem Prod.fst hp))
      by_cases hik : i = k
      · subst hik
        rw [if_pos rfl, hnone]
        rw [show tcLookup ((i, f tcDefault) :: (k1, v) :: rest) i
            = if i = i then some (f tcDefault) else tcLookup ((k1, v) :: rest) i
          from rfl]
        rw [if_pos rfl]
        rfl
      · rw [if_neg hik]
        rw [show tcLookup ((k, f tcDefault) :: (k1, v) :: rest) i
            = if k = i then some (f tcDefault) else tcLookup ((k1, v) :: rest) i
          from rfl]
        rw [if_neg (fun h => hik h.symm)]
    · rw [if_neg h1]
      by_cases h2 : k = k1
      · subst h2
        rw [if_pos rfl]
        by_cases hik : i = k
        · subst hik
          rw [if_pos rfl]
          rw [show tcLookup ((i, f v) :: rest) i
              = if i = i then some (f v) else tcLookup rest i from rfl]
          rw [show tcLookup ((i, v) :: rest) i
              = if i = i then some v else tcLookup rest i from rfl]
          rw [if_pos rfl, if_pos rfl]
          rfl
        · rw [if_neg hik]
          rw [show tcLookup ((k, f v) :: rest) i
              = if k = i then some (f v) else tcLookup rest i from rfl]
          rw [show tcLookup ((k, v) :: rest) i
              = if k = i then some v else tcLookup rest i from rfl]
          rw [if_neg (fun h => hik h.symm), if_neg (fun h => hik h.symm)]
      · rw [if_neg h2]
        rw [show tcLookup ((k1, v) :: tcUpdate rest k f) i
            = if k1 = i then some v else tcLookup (tcUpdate rest k f) i
          from rfl]
        rw [show tcLookup ((k1, v) :: rest) i
            = if k1 = i then some v else tcLookup rest i from rfl]
        by_cases h3 : k1 = i
        · subst h3
          rw [if_pos rfl, if_pos rfl]
          rw [if_neg (fun h : k1 = k => h2 h.symm)]
        · rw [if_neg h3, if_neg h3, ih hrest]
          by_cases hik : i = k
          · subst hik
            rw [if_pos rfl, if_pos rfl]
            rw [show tcLookup ((k1, v) :: rest) i
                = if k1 = i then some v else tcLookup rest i from rfl]
            rw [if_neg h3]
          · rw [if_neg hik, if_neg hik]

theorem tcUpdate_keys_subset (m : TCMap) (k : Nat)
    (f : ToolCallAccumulator → ToolCallAccumulator) :
    ∀ j ∈ (tcUpdate m k f).map Prod.fst, j = k ∨ j ∈ m.map Prod.fst := by
  induction m with
  | nil =>
    intro j hj
    simp [tcUpdate] at hj
    exact Or.inl hj
  | cons p rest ih =>
    obtain ⟨k1, v⟩ := p
    intro j hj
    rw [show tcUpdate ((k1, v) :: rest) k f
        = if k < k1 then (k, f tcDefault) :: (k1, v) :: rest
          else if k = k1 then (k1, f v) :: rest
          else (k1, v) :: tcUpdate rest k f from rfl] at hj
    by_cases h1 : k < k1
    · rw [if_pos h1] at hj
      simp at hj
      rcases hj with hj | hj | hj
      · exact Or.inl hj
      · exact Or.inr (by simp [hj])
      · exact Or.inr (by simp [hj])
    · rw [if_neg h1] at hj
      by_cases h2 : k = k1
      · rw [if_pos h2] at hj
        simp at hj
        rcases hj with hj | hj
        · exact Or.inr (by simp [hj])
        · exact Or.inr (by simp [hj])
      · rw [if_neg h2] at hj
        simp at hj
        rcases hj with hj | hj
        · exact Or.inr (by simp [hj])
        · rcases ih j (by simpa using hj) with hj2 | hj2
          · exact Or.inl hj2
          · exact Or.inr (by simp [hj2])

theorem tcUpdate_pairwise (m : TCMap) (k : Nat)
    (f : ToolCallAccumulator → ToolCallAccumulator)
    (hs : (m.map Prod.fst).Pairwise (· < ·)) :
    ((tcUpdate m k f).map Prod.fst).Pairwise (· < ·) := by
  induction m with
  | nil => simp [tcUpdate]
  | cons p rest ih =>
    obtain ⟨k1, v⟩ := p
    rw [List.map_cons, List.pairwise_cons] at hs
    obtain ⟨hlt, hrest⟩ := hs
    rw [show tcUpdate ((k1, v) :: rest) k f
        = if k < k1 then (k, f tcDefault) :: (k1, v) :: rest
          else if k = k1 then (k1, f v) :: rest
          else (k1, v) :: tcUpdate rest k f from rfl]
    by_cases h1 : k < k1
    · rw [if_pos h1]
      rw [List.map_cons, List.pairwise_cons]
      constructor
      · intro j hj
        rw [List.map_cons] at hj
        rcases List.mem_cons.mp hj with hj | hj
        · subst hj; exact h1
        · exact lt_trans h1 (hlt j hj)
      · rw [List.map_cons, List.pairwise_cons]
        exact ⟨hlt, hrest⟩
    · rw [if_neg h1]
      by_cases h2 : k = k1
      · rw [if_pos h2]
        rw [List.map_cons, List.pairwise_cons]
        exact ⟨hlt, hrest⟩
      · rw [if_neg h2]
        rw [List.map_cons, List.pairwise_cons]
        constructor
        · intro j hj
          rcases tcUpdate_keys_subset rest k f j hj with hj2 | hj2
          · subst hj2
            omega
          · exact hlt j hj2
        · exact ih hrest

theorem applyTrace_append (m : TCMap) (t1 t2 : List (Nat × ChatToolCallDelta)) :
    applyTrace m (t1 ++ t2) = applyTrace (applyTrace m t1) t2 :=
  List.foldl_append _ _ _ _

theorem applyTrace_pairwise (ops : List (Nat × ChatToolCallDelta)) :
    ∀ (m : TCMap), (m.map Prod.fst).Pairwise (· < ·) →
    ((applyTrace m ops).map Prod.fst).Pairwise (· < ·) := by
  induction ops with
  | nil => intro m hs; exact hs
  | cons q ops ih =>
    intro m hs
    exact ih _ (tcUpdate_pairwise m q.1 _ hs)

theorem fragmentsFor_cons (i : Nat) (q : Nat × ChatToolCallDelta)
    (ops : List (Nat × ChatToolCallDelta)) :
    fragmentsFor i (q :: ops)
      = if q.1 = i then q.2 :: fragmentsFor i ops else fragmentsFor i ops := by
  unfold fragmentsFor
  rw [List.filter_cons]
  by_cases h : q.1 = i
  · rw [if_pos (by simpa using h), if_pos h, List.map_cons]
  · rw [if_neg (by simpa using h), if_neg h]

theorem applyTrace_lookup (ops : List (Nat × ChatToolCallDelta)) :
    ∀ (m : TCMap), (m.map Prod.fst).Pairwise (· < ·) → ∀ (i : Nat),
    tcLookup (applyTrace m ops) i
      = match tcLookup m i with
        | some e => some ((fragmentsFor i ops).foldl applyToolCallFields e)
        | none =>
          if fragmentsFor i ops = [] then none
          else some ((fragmentsFor i ops).foldl applyToolCallFields tcDefault) := by
  induction ops with
  | nil =>
    intro m hs i
    show tcLookup m i = _
    cases tcLookup m i with
    | none => simp [fragmentsFor]
    | some e => simp [fragmentsFor]
  | cons q ops ih =>
    intro m hs i
    obtain ⟨k, tc⟩ := q
    rw [show applyTrace m ((k, tc) :: ops)
        = applyTrace (tcUpdate m k (fun e => applyToolCallFields e tc)) ops
      from rfl]
    rw [ih _ (tcUpdate_pairwise m k _ hs) i]
    rw [tcLookup_tcUpdate m k i _ hs, fragmentsFor_cons]
    by_cases hik : i = k
    · subst hik
      rw [if_pos rfl]
      have hfrag : (if (i, tc).1 = i then (i, tc).2 :: fragmentsFor i ops
          else fragmentsFor i ops) = tc :: fragmentsFor i ops := by simp
      rw [hfrag]
      cases hm : tcLookup m i with
      | some e => rfl
      | none =>
        rw [if_neg (show ¬ (tc :: fragmentsFor i ops = []) by simp)]
        rfl
    · rw [if_neg hik]
      have hki : ¬ k = i := fun h => hik h.symm
      have hfrag : (if (k, tc).1 = i then (k, tc).2 :: fragmentsFor i ops
          else fragmentsFor i ops) = fragmentsFor i ops := by simp [hki]
      rw [hfrag]

theorem foldl_applyToolCallDelta_eq (tcs : List ChatToolCallDelta) :
    ∀ (m : TCMap),
    tcs.foldl applyToolCallDelta m = applyTrace m (resolveToolCalls m tcs) := by
  induction tcs with
  | nil => intro m; rfl
  | cons tc tcs ih =>
    intro m
    rw [show resolveToolCalls m (tc :: tcs)
        = (tc.index.getD m.length, tc)
          :: resolveToolCalls
            (tcUpdate m (tc.index.getD m.length)
              (fun e => applyToolCallFields e tc)) tcs from rfl]
    rw [List.foldl_cons]
    exact ih _

theorem processChoice_toolcalls (acc : StreamAccumulator) (added : Bool)
    (choice : ChatChoice) :
    (processChoice acc added choice).2.1.tool_calls
      = applyTrace acc.tool_calls (choiceToolCallTrace acc choice) := by
  cases hd : choice.delta with
  | none => simp [processChoice, choiceToolCallTrace, hd, applyTrace]
  | some delta =>
    cases ht : delta.tool_calls with
    | none =>
      cases hc : delta.content with
      | none => simp [processChoice, choiceToolCallTrace, hd, ht, hc, applyTrace]
      | some content =>
        by_cases hcon : content = []
        · simp [processChoice, choiceToolCallTrace, hd, ht, hc,
            if_neg (not_not_intro hcon), applyTrace]
        · simp [processChoice, choiceToolCallTrace, hd, ht, hc,
            if_pos hcon, applyTrace]
    | some tcs =>
      cases hc : delta.content with
      | none =>
        simp only [processChoice, choiceToolCallTrace, hd, ht, hc]
        exact foldl_applyToolCallDelta_eq tcs acc.tool_calls
      | some content =>
        by_cases hcon : content = []
        · simp only [processChoice, choiceToolCallTrace, hd, ht, hc,
            if_neg (not_not_intro hcon)]
          exact foldl_applyToolCallDelta_eq tcs acc.tool_calls
        · simp only [processChoice, choiceToolCallTrace, hd, ht, hc,
            if_pos hcon]
          exact foldl_applyToolCallDelta_eq tcs acc.tool_calls


theorem processChoices_toolcalls (cs : List ChatChoice) :
    ∀ (acc : StreamAccumulator) (added : Bool),
    (processChoices acc added cs).2.1.tool_calls
      = applyTrace acc.tool_calls (choicesToolCallTrace acc added cs) := by
  induction cs with
  | nil => intro acc added; rfl
  | cons c cs ih =>
    intro acc added
    simp only [processChoices, choicesToolCallTrace]
    rw [ih, applyTrace_append, processChoice_toolcalls]

theorem processPayload_toolcalls (decode : List Char → Option ChatChunk)
    (acc : StreamAccumulator) (added : Bool) (data : List Char) :
    (processPayload decode acc added data).2.1.tool_calls
      = applyTrace acc.tool_calls
          (payloadToolCallTrace decode acc added data) := by
  by_cases hd : data = "[DONE]".toList
  · simp only [processPayload, payloadToolCallTrace, if_pos hd]
    rfl
  · cases hdec : decode data with
    | none =>
      simp only [processPayload, payloadToolCallTrace, if_neg hd, hdec]
      rfl
    | some chunk =>
      cases hu : chunk.usage with
      | none =>
        simp only [processPayload, payloadToolCallTrace, if_neg hd, hdec, hu]
        exact processChoices_toolcalls chunk.choices acc added
      | some u =>
        simp only [processPayload, payloadToolCallTrace, if_neg hd, hdec, hu]
        exact processChoices_toolcalls chunk.choices _ added

theorem processPayloads_toolcalls (decode : List Char → Option ChatChunk)
    (ds : List (List Char)) :
    ∀ (acc : StreamAccumulator) (added : Bool),
    (processPayloads decode acc added ds).2.1.tool_calls
      = applyTrace acc.tool_calls
          (payloadsToolCallTrace decode acc added ds) := by
  induction ds with
  | nil => intro acc added; rfl
  | cons d ds ih =>
    intro acc added
    simp only [processPayloads, payloadsToolCallTrace]
    rw [ih, applyTrace_append, processPayload_toolcalls]

theorem translateRunState_toolcalls (decode : List Char → Option ChatChunk)
    (texts : List (List Char)) :
    ∀ (p : SseParser) (acc : StreamAccumulator) (added : Bool),
    (translateRunState decode p acc added texts).2.1.tool_calls
      = applyTrace acc.tool_calls
          (chunksToolCallTrace decode p acc added texts) := by
  induction texts with
  | nil => intro p acc added; rfl
  | cons c cs ih =>
    intro p acc added
    simp only [translateRunState, chunksToolCallTrace]
    rw [ih, applyTrace_append, processPayloads_toolcalls]

theorem finalAccumulator_toolcalls (decode : List Char → Option ChatChunk)
    (chunks : List (Except (List Char) (List Char))) :
    (finalAccumulator decode chunks).tool_calls
      = applyTrace [] (streamToolCallTrace decode chunks) := by
  unfold finalAccumulator streamToolCallTrace
  rw [translateRunState_toolcalls]
  rfl

theorem applyToolCallFields_arguments (e : ToolCallAccumulator)
    (tc : ChatToolCallDelta) :
    (applyToolCallFields e tc).arguments
      = e.arguments ++ (fragmentArgument tc).getD [] := by
  cases hf : tc.function with
  | none =>
    cases hi : tc.id <;>
      simp [applyToolCallFields, fragmentArgument, hf, hi]
  | some f =>
    cases ha : f.arguments with
    | none =>
      cases hi : tc.id <;> cases hn : f.name <;>
        simp [applyToolCallFields, fragmentArgument, hf, ha, hi, hn]
    | some a =>
      cases hi : tc.id <;> cases hn : f.name <;>
        simp [applyToolCallFields, fragmentArgument, hf, ha, hi, hn]

theorem applyToolCallFields_name (e : ToolCallAccumulator)
    (tc : ChatToolCallDelta) :
    (applyToolCallFields e tc).name
      = match fragmentName tc with
        | some n => some n
        | none => e.name := by
  cases hf : tc.function with
  | none =>
    cases hi : tc.id <;>
      simp [applyToolCallFields, fragmentName, hf, hi]
  | some f =>
    cases hn : f.name with
    | none =>
      cases hi : tc.id <;> cases ha : f.arguments <;>
        simp [applyToolCallFields, fragmentName, hf, ha, hi, hn]
    | some n =>
      cases hi : tc.id <;> cases ha : f.arguments <;>
        simp [applyToolCallFields, fragmentName, hf, ha, hi, hn]

theorem applyToolCallFields_id (e : ToolCallAccumulator)
    (tc : ChatToolCallDelta) :
    (applyToolCallFields e tc).id
      = match tc.id with
        | some i => some i
        | none => e.id := by
  cases hi : tc.id with
  | none =>
    cases hf : tc.function with
    | none => simp [applyToolCallFields, hf, hi]
    | some f =>
      cases hn : f.name <;> cases ha : f.arguments <;>
        simp [applyToolCallFields, hf, ha, hi, hn]
  | some i =>
    cases hf : tc.function with
    | none => simp [applyToolCallFields, hf, hi]
    | some f =>
      cases hn : f.name <;> cases ha : f.arguments <;>
        simp [applyToolCallFields, hf, ha, hi, hn]

theorem foldl_fields_arguments (fs : List ChatToolCallDelta) :
    ∀ (e : ToolCallAccumulator),
    (fs.foldl applyToolCallFields e).arguments
      = e.arguments ++ (fs.filterMap fragmentArgument).flatten := by
  induction fs with
  | nil => intro e; simp
  | cons tc fs ih =>
    intro e
    rw [List.foldl_cons, ih, applyToolCallFields_arguments,
      List.filterMap_cons]
    cases ha : fragmentArgument tc with
    | none => simp
    | some a => simp

theorem foldl_fields_name (fs : List ChatToolCallDelta) :
    ∀ (e : ToolCallAccumulator),
    (fs.foldl applyToolCallFields e).name
      = match (fs.filterMap fragmentName).getLast? with
        | some n => some n
        | none => e.name := by
  induction fs with
  | nil => intro e; rfl
  | cons tc fs ih =>
    intro e
    rw [List.foldl_cons, ih, applyToolCallFields_name, List.filterMap_cons]
    cases hn : fragmentName tc with
    | none =>
      cases (List.filterMap fragmentName fs).getLast? <;> rfl
    | some n =>
      cases hL : List.filterMap fragmentName fs with
      | nil => rfl
      | cons x xs =>
        rw [List.getLast?_cons_cons]
        cases hm : (x :: xs).getLast? with
        | some m => rfl
        | none => exact absurd hm (by simp)

theorem foldl_fields_id (fs : List ChatToolCallDelta) :
    ∀ (e : ToolCallAccumulator),
    (fs.foldl applyToolCallFields e).id
      = match (fs.filterMap ChatToolCallDelta.id).getLast? with
        | some i => some i
        | none => e.id := by
  induction fs with
  | nil => intro e; rfl
  | cons tc fs ih =>
    intro e
    rw [List.foldl_cons, ih, applyToolCallFields_id, List.filterMap_cons]
    cases hn : tc.id with
    | none =>
      cases (List.filterMap ChatToolCallDelta.id fs).getLast? <;> rfl
    | some i =>
      cases hL : List.filterMap ChatToolCallDelta.id fs with
      | nil => rfl
      | cons x xs =>
        rw [List.getLast?_cons_cons]
        cases hm : (x :: xs).getLast? with
        | some m => rfl
        | none => exact absurd hm (by simp)

theorem fnDoneItems_eq_nil_of {l : List RespEvent}
    (h : ∀ e ∈ l, ∀ n a c, ¬ e = RespEvent.output_item_done_function_call n a c) :
    fnDoneItems l = [] := by
  induction l with
  | nil => rfl
  | cons e rest ih =>
    have hrest := ih (fun e2 he2 => h e2 (List.mem_cons_of_mem _ he2))
    cases e with
    | output_item_done_function_call n a c =>
      exact absurd rfl (h _ (List.mem_cons_self _ _) n a c)
    | created i => simpa [fnDoneItems] using hrest
    | output_item_added => simpa [fnDoneItems] using hrest
    | output_text_delta d => simpa [fnDoneItems] using hrest
    | output_item_done_message t => simpa [fnDoneItems] using hrest
    | completed i u => simpa [fnDoneItems] using hrest
    | failed i c m => simpa [fnDoneItems] using hrest

theorem fnDoneItems_cons_created (i : List Char) (rest : List RespEvent) :
    fnDoneItems (RespEvent.created i :: rest) = fnDoneItems rest := rfl

theorem fnDoneItems_fnmap (uuid : Nat → List Char) (l : TCMap) :
    fnDoneItems (l.map (fun p =>
      RespEvent.output_item_done_function_call
        (p.2.name.getD "unknown_function".toList)
        p.2.arguments
        (p.2.id.getD ("call_".toList ++ uuid p.1 ++ "_".toList
          ++ (toString p.1).toList))))
      = l.map (fun p =>
          (p.2.name.getD "unknown_function".toList,
            p.2.arguments,
            p.2.id.getD ("call_".toList ++ uuid p.1 ++ "_".toList
              ++ (toString p.1).toList))) := by
  induction l with
  | nil => rfl
  | cons p rest ih =>
    rw [List.map_cons, List.map_cons]
    rw [show fnDoneItems (RespEvent.output_item_done_function_call
        (p.2.name.getD "unknown_function".toList)
        p.2.arguments
        (p.2.id.getD ("call_".toList ++ uuid p.1 ++ "_".toList
          ++ (toString p.1).toList)) :: rest.map (fun p =>
            RespEvent.output_item_done_function_call
              (p.2.name.getD "unknown_function".toList)
              p.2.arguments
              (p.2.id.getD ("call_".toList ++ uuid p.1 ++ "_".toList
                ++ (toString p.1).toList))))
        = (p.2.name.getD "unknown_function".toList,
            p.2.arguments,
            p.2.id.getD ("call_".toList ++ uuid p.1 ++ "_".toList
              ++ (toString p.1).toList))
          :: fnDoneItems (rest.map (fun p =>
            RespEvent.output_item_done_function_call
              (p.2.name.getD "unknown_function".toList)
              p.2.arguments
              (p.2.id.getD ("call_".toList ++ uuid p.1 ++ "_".toList
                ++ (toString p.1).toList)))) from rfl]
    rw [ih]

theorem fnDoneItems_finishEvents (uuid : Nat → List Char) (respId : List Char)
    (acc : StreamAccumulator) :
    fnDoneItems (finishEvents uuid respId acc)
      = acc.tool_calls.map (fun p =>
          (p.2.name.getD "unknown_function".toList,
            p.2.arguments,
            p.2.id.getD ("call_".toList ++ uuid p.1 ++ "_".toList
              ++ (toString p.1).toList))) := by
  rw [finishEvents_concat, fnDoneItems_append, fnDoneItems_append]
  have h1 : fnDoneItems (if ¬ acc.assistant_text = [] then
      [RespEvent.output_item_done_message acc.assistant_text] else []) = [] := by
    split <;> rfl
  have h3 : fnDoneItems [RespEvent.completed respId acc.usage] = [] := rfl
  rw [h1, h3, fnDoneItems_fnmap, List.nil_append, List.append_nil]

/-- C9: at the end of a non-failing translated stream, one
`function_call`-shaped `response.output_item.done` event is emitted per
accumulated tool-call entry, in strictly ascending index order, with
the accumulated name (or `unknown_function`), the accumulated argument
string, and the received id (or a fresh `call_<uuid>_<index>`); each
accumulated entry is exactly the combination of the fragments received
for its index in arrival order — argument fragments concatenate, the
last received name and id win. -/
theorem C9_tool_call_emission (decode : List Char → Option ChatChunk)
    (uuid : Nat → List Char) (respId : List Char)
    (chunks : List (Except (List Char) (List Char)))
    (h : firstReadError chunks = none) :
    fnDoneItems (translate_chat_stream decode uuid respId chunks)
      = (finalAccumulator decode chunks).tool_calls.map (fun p =>
          (p.2.name.getD "unknown_function".toList,
            p.2.arguments,
            p.2.id.getD ("call_".toList ++ uuid p.1 ++ "_".toList
              ++ (toString p.1).toList))) ∧
    ((finalAccumulator decode chunks).tool_calls.map Prod.fst).Pairwise (· < ·) ∧
    (∀ i, tcLookup (finalAccumulator decode chunks).tool_calls i
      = (if fragmentsFor i (streamToolCallTrace decode chunks) = [] then none
        else some (combineFragments
          (fragmentsFor i (streamToolCallTrace decode chunks))))) ∧
    (∀ fs : List ChatToolCallDelta,
      (combineFragments fs).arguments = (fs.filterMap fragmentArgument).flatten ∧
      (combineFragments fs).name = (fs.filterMap fragmentName).getLast? ∧
      (combineFragments fs).id = (fs.filterMap ChatToolCallDelta.id).getLast?) := by
  obtain ⟨mid, added1, heq, hmid, htext⟩ :=
    translateLoop_decomp decode uuid respId chunks sseParserInit saInit false
  rw [h] at heq
  have hevs : translate_chat_stream decode uuid respId chunks
      = RespEvent.created respId
        :: (mid ++ finishEvents uuid respId (finalAccumulator decode chunks)) := by
    rw [translate_chat_stream, heq]
    rfl
  refine ⟨?_, ?_, ?_, ?_⟩
  · rw [hevs, fnDoneItems_cons_created, fnDoneItems_append]
    have hmid0 : fnDoneItems mid = [] := by
      apply fnDoneItems_eq_nil_of
      intro e he n a c
      rcases midOk_mem hmid e he with he2 | he2
      · subst he2
        simp
      · intro hc
        subst hc
        simp [RespEvent.isNonemptyDelta] at he2
    rw [hmid0, List.nil_append, fnDoneItems_finishEvents]
  · rw [finalAccumulator_toolcalls]
    exact applyTrace_pairwise _ [] (by simp)
  · intro i
    rw [finalAccumulator_toolcalls,
      applyTrace_lookup (streamToolCallTrace decode chunks) [] (by simp) i]
    rfl
  · intro fs
    refine ⟨?_, ?_, ?_⟩
    · simpa [combineFragments, tcDefault] using foldl_fields_arguments fs tcDefault
    · rw [show combineFragments fs = fs.foldl applyToolCallFields tcDefault
        from rfl, foldl_fields_name]
      cases (fs.filterMap fragmentName).getLast? <;> rfl
    · rw [show combineFragments fs = fs.foldl applyToolCallFields tcDefault
        from rfl, foldl_fields_id]
      cases (fs.filterMap ChatToolCallDelta.id).getLast? <;> rfl

theorem C9_tool_call_emission_witness :
    fnDoneItems (translate_chat_stream
        (fun _ => some ⟨[⟨some ⟨none,
          some [⟨some 0, some ['i'], some ⟨some ['f'], some ['a']⟩⟩]⟩⟩], none⟩)
        (fun _ => ['u']) ['r'] [Except.ok ("data: x\n\n".toList)])
      = (finalAccumulator
          (fun _ => some ⟨[⟨some ⟨none,
            some [⟨some 0, some ['i'], some ⟨some ['f'], some ['a']⟩⟩]⟩⟩], none⟩)
          [Except.ok ("data: x\n\n".toList)]).tool_calls.map (fun p =>
          (p.2.name.getD "unknown_function".toList,
            p.2.arguments,
            p.2.id.getD ("call_".toList ++ (fun _ => ['u']) p.1 ++ "_".toList
              ++ (toString p.1).toList))) ∧
    ((finalAccumulator
        (fun _ => some ⟨[⟨some ⟨none,
          some [⟨some 0, some ['i'], some ⟨some ['f'], some ['a']⟩⟩]⟩⟩], none⟩)
        [Except.ok ("data: x\n\n".toList)]).tool_calls.map Prod.fst).Pairwise
      (· < ·) ∧
    (∀ i, tcLookup (finalAccumulator
        (fun _ => some ⟨[⟨some ⟨none,
          some [⟨some 0, some ['i'], some ⟨some ['f'], some ['a']⟩⟩]⟩⟩], none⟩)
        [Except.ok ("data: x\n\n".toList)]).tool_calls i
      = (if fragmentsFor i (streamToolCallTrace
            (fun _ => some ⟨[⟨some ⟨none,
              some [⟨some 0, some ['i'], some ⟨some ['f'], some ['a']⟩⟩]⟩⟩], none⟩)
            [Except.ok ("data: x\n\n".toList)]) = [] then none
        else some (combineFragments
          (fragmentsFor i (streamToolCallTrace
            (fun _ => some ⟨[⟨some ⟨none,
              some [⟨some 0, some ['i'], some ⟨some ['f'], some ['a']⟩⟩]⟩⟩], none⟩)
            [Except.ok ("data: x\n\n".toList)]))))) ∧
    (∀ fs : List ChatToolCallDelta,
      (combineFragments fs).arguments = (fs.filterMap fragmentArgument).flatten ∧
      (combineFragments fs).name = (fs.filterMap fragmentName).getLast? ∧
      (combineFragments fs).id = (fs.filterMap ChatToolCallDelta.id).getLast?) :=
  C9_tool_call_emission
    (fun _ => some ⟨[⟨some ⟨none,
      some [⟨some 0, some ['i'], some ⟨some ['f'], some ['a']⟩⟩]⟩⟩], none⟩)
    (fun _ => ['u']) ['r'] [Except.ok ("data: x\n\n".toList)] rfl
